import Mathlib

/-
Formal model of `linetools/analysis/interactive_plot.py`, the interactive
continuum-fitting GUI.  The knot list, the continuum array and the spectrum
arrays are modelled over ℚ (the Python floats carry exact decimal values in
every scenario the claims exercise, and no claim depends on rounding).
External collaborators are abstracted exactly as the specification directs:
the Akima spline is an opaque function parameter, the matplotlib data→screen
transform is an opaque function parameter, and `local_median` (source lines
41–50, whose internals — a median over nearby good pixels — no claim depends
on) is abstracted as a function `lm : ℚ → Option ℚ` returning `some median`
when good pixels exist and `none` when the caller-supplied default is used.
Python exceptions escaping a handler are modelled by returning the state at
the moment the exception is raised (object state mutated so far persists)
together with `Option PyErr`.
-/

/-- A knot/control point: a (wavelength, flux) pair. -/
abbrev Pt : Type := ℚ × ℚ

/-- Python tuple comparison on pairs (lexicographic: first component, then
second), as used by `list.sort()` and `sorted()` on `contpoints`. -/
def ptLe (p q : Pt) : Prop := p.1 < q.1 ∨ (p.1 = q.1 ∧ p.2 ≤ q.2)

instance : DecidableRel ptLe := fun p q => by
  unfold ptLe; infer_instance

theorem ptLe_refl (p : Pt) : ptLe p p := Or.inr ⟨rfl, le_refl _⟩

instance : IsTotal Pt ptLe := ⟨by
  intro p q
  rcases lt_trichotomy p.1 q.1 with h | h | h
  · exact Or.inl (Or.inl h)
  · rcases le_total p.2 q.2 with h2 | h2
    · exact Or.inl (Or.inr ⟨h, h2⟩)
    · exact Or.inr (Or.inr ⟨h.symm, h2⟩)
  · exact Or.inr (Or.inl h)⟩

instance : IsTrans Pt ptLe := ⟨by
  intro p q r hpq hqr
  rcases hpq with h | ⟨he, hy⟩
  · rcases hqr with h2 | ⟨he2, hy2⟩
    · exact Or.inl (h.trans h2)
    · exact Or.inl (he2 ▸ h)
  · rcases hqr with h2 | ⟨he2, hy2⟩
    · exact Or.inl (he ▸ h2)
    · exact Or.inr ⟨he.trans he2, hy.trans hy2⟩⟩

instance : IsAntisymm Pt ptLe := ⟨by
  intro p q hpq hqp
  rcases hpq with h | ⟨he, hy⟩
  · rcases hqp with h2 | ⟨he2, hy2⟩
    · exact absurd (h.trans h2) (lt_irrefl _)
    · exact absurd h (by rw [he2]; exact lt_irrefl _)
  · rcases hqp with h2 | ⟨he2, hy2⟩
    · exact absurd h2 (by rw [he]; exact lt_irrefl _)
    · exact Prod.ext he (le_antisymm hy hy2)⟩

/-- Ordering by wavelength only ("sorted by wavelength"). -/
def xLe (p q : Pt) : Prop := p.1 ≤ q.1

/-- The knot list is sorted by wavelength (non-strictly). -/
def sortedX (l : List Pt) : Prop := l.Sorted xLe

instance : DecidableRel xLe := fun p q => by
  unfold xLe; infer_instance

instance (l : List Pt) : Decidable (sortedX l) := by
  unfold sortedX; infer_instance

theorem ptLe_imp_xLe {p q : Pt} (h : ptLe p q) : xLe p q := by
  rcases h with h | ⟨he, _⟩
  · exact le_of_lt h
  · exact le_of_eq he

theorem sortedX_of_sorted_ptLe {l : List Pt} (h : l.Sorted ptLe) : sortedX l :=
  List.Pairwise.imp (fun hpq => ptLe_imp_xLe hpq) h

/-- linetools.utils.between (imported by the source, outside src/):
true where vmin <= x < vmax; only this boundary-inclusive reading matters
and no claim hinges on the boundary convention (all claim instances use
strictly interior cursor positions or quantify over the guard's value). -/
def between (x vmin vmax : ℚ) : Bool := decide (vmin ≤ x ∧ x < vmax)

/-- Python exceptions that can escape the handlers we model. -/
inductive PyErr : Type
  | valueError : PyErr
  | nameError : PyErr
  | indexError : PyErr
deriving DecidableEq

/-- A matplotlib key/mouse event, restricted to the fields the handlers read:
the key string, whether the cursor is in the relevant axes, the cursor data
coordinates (`xdata`, `ydata`) and the cursor screen-pixel coordinates
(`x`, `y`). -/
structure Event where
  key : String
  inaxes : Bool
  xdata : ℚ
  ydata : ℚ
  x : ℚ
  y : ℚ
deriving DecidableEq

/-- The mutable state of an `InteractiveCoFit` instance that the claims are
about: the knot list, the continuum array, the fitting-window indices, the
two injected anchor points, the (pre-snap) window extremes and the finished
flag. -/
structure CoFitState where
  contpoints : List Pt
  continuum : List ℚ
  indices : ℕ × ℕ
  anchor_start : Pt
  anchor_end : Pt
  wmin : ℚ
  wmax : ℚ
  finished : Bool
deriving DecidableEq

/-- The `key == 'i'` (zoom-in) branch of `PlotWrapBase.on_keypress_navigate`
(source lines 98–103): with the cursor in the axes, the x-limits become
`(xdata - 0.275*dx, xdata + 0.275*dx)` where `dx = |x1 - x0|`; otherwise the
limits are untouched. -/
def on_keypress_navigate_i (key : String) (inaxes : Bool) (xlim : ℚ × ℚ)
    (xdata : ℚ) : ℚ × ℚ :=
  if key = "i" ∧ inaxes = true then
    let dx := |xlim.2 - xlim.1|
    (xdata - 0.275 * dx, xdata + 0.275 * dx)
  else xlim

/-- numpy `searchsorted` with side left on a sorted array: the number of
entries strictly below `x` (the left insertion index). -/
def searchsorted (wa : List ℚ) (x : ℚ) : ℕ :=
  wa.countP fun w => decide (w < x)

/-- The knot-list part of `InteractiveCoFit.__init__` (source lines 274–298):
sorts the input points, snaps the first and last knot wavelengths to grid
values `wa[i1]`, `wa[i2]` computed by `searchsorted` with the source's edge
adjustments, records the fitting-window indices and injects one anchor point
on each side read from `wa`/`co`.  Every Python array access is modelled by
`List.get?`; `none` is an IndexError escaping `__init__`.  The `i2 < 0`
disjunct of the source's adjustment is vacuous for a natural-number index
and is dropped.  The interactive `_knots.jsn` reload prompt and all plotting
calls are out of scope. -/
def initCoFit (wa co : List ℚ) (contpoints0 : List Pt) : Option CoFitState :=
  let s := List.insertionSort ptLe contpoints0
  match s.head?, s.getLast? with
  | some first, some lastp =>
    let wmin := first.1
    let wmax := lastp.1
    let i1a := searchsorted wa wmin
    let i2a := searchsorted wa wmax
    let i1 := if i1a = 0 then 1 else i1a
    let i2 := if i2a = wa.length - 1 then wa.length else i2a
    match wa.get? i1 with
    | none => none
    | some w1 =>
      let s1 := s.set 0 (w1, first.2)
      match s1.getLast?, wa.get? i2 with
      | some q, some w2 =>
        let s2 := s1.set (s1.length - 1) (w2, q.2)
        match wa.get? (i1 - 1), co.get? (i1 - 1),
            wa.get? (i2 + 1), co.get? (i2 + 1) with
        | some a1w, some a1c, some a2w, some a2c =>
          some { contpoints := s2, continuum := co, indices := (i1, i2),
                 anchor_start := (a1w, a1c), anchor_end := (a2w, a2c),
                 wmin := wmin, wmax := wmax, finished := false }
        | _, _, _, _ => none
      | _, _ => none
  | _, _ => none

/-- C1: pressing zoom-in with x-limits (4000, 5000) and cursor x = 4500 does
not produce the limits (4275, 4725) stated by the claim. -/
theorem c1_zoom_in_counterexample :
    on_keypress_navigate_i "i" true (4000, 5000) 4500 ≠ ((4275 : ℚ), (4725 : ℚ)) := by
  unfold on_keypress_navigate_i
  norm_num [Prod.ext_iff]

/-- C1 (amended): pressing zoom-in with x-limits (4000, 5000) and cursor
x = 4500 sets the limits to exactly (4225, 4775), i.e. the window centred on
the cursor with half-width 0.275 times the old width. -/
theorem c1_zoom_in_amended :
    on_keypress_navigate_i "i" true (4000, 5000) 4500 = ((4225 : ℚ), (4775 : ℚ)) := by
  unfold on_keypress_navigate_i
  norm_num [Prod.ext_iff]

/-- C2: a constructor input whose knot maximum equals the last spectrum
wavelength makes `__init__` read `wa` at index `len(wa)`: the model returns
`none` (an IndexError in the source), contradicting the claim that
initialization succeeds with in-bounds accesses. -/
theorem c2_init_out_of_range :
    initCoFit [1, 2, 3, 4, 5] [0, 0, 0, 0, 0] [(1, 1), (5, 1)] = none := by
  decide

/-- Midpoints of adjacent entries, `xc[:-1] + 0.5*np.diff(xc)` (source line
429): for each adjacent pair `(a, b)` the value `a + (b - a)/2`. -/
def midpoints : List ℚ → List ℚ
  | a :: b :: t => (a + (b - a) / 2) :: midpoints (b :: t)
  | _ => []

/-- numpy `np.interp` for a nondecreasing sample grid `xp` with values `fp`:
clamps below the first and above the last grid point, linear in between.  At
a degenerate interval (`x1 = x0`, where numpy would produce NaN from a 0/0
slope) the rational model yields `y0`; no claim depends on interpolated
values at duplicated grid points. -/
def npInterp : List ℚ → List ℚ → ℚ → ℚ
  | [_], y0 :: _, _ => y0
  | x0 :: x1 :: xs, y0 :: y1 :: ys, x =>
    if x ≤ x0 then y0
    else if x ≤ x1 then y0 + (y1 - y0) * (x - x0) / (x1 - x0)
    else npInterp (x1 :: xs) (y1 :: ys) x
  | _, _, _ => 0

/-- The `key == '+'` (double knots) computation of
`InteractiveCoFit.on_keypress` (source lines 424–435): build midpoints of
adjacent knot wavelengths, give each the local flux median if available and
otherwise the linear interpolation of the knot values, append and re-sort.
Called only with a nonempty knot list (the source raises on an empty one). -/
def doubleKnots (lm : ℚ → Option ℚ) (cp : List Pt) : List Pt :=
  let xc := cp.map Prod.fst
  let yc := cp.map Prod.snd
  let xnew := midpoints xc
  let ynew := xnew.map fun x => (lm x).getD (npInterp xc yc x)
  List.insertionSort ptLe (cp ++ xnew.zip ynew)

/-- Python slice `[1::2]`: the entries at odd indices. -/
def everyOther : List Pt → List Pt
  | _ :: b :: t => b :: everyOther t
  | _ => []

/-- The `key == '_'` (halve knots) computation of `on_keypress` (source lines
437–440): `[cp[0]] + cp[1:-1][1::2] + [cp[-1]]`.  Called only with a
nonempty knot list (the source raises `cp[0]` IndexError on an empty one);
the defaults of `headD`/`getLastD` are then never read. -/
def halveKnots (cp : List Pt) : List Pt :=
  [cp.headD (0, 0)] ++ everyOther (cp.drop 1).dropLast ++ [cp.getLastD (0, 0)]

/-- Python `list.remove(v)`: drop the first element equal to `v`, with
equality decided propositionally. -/
def pyRemove (l : List Pt) (v : Pt) : List Pt :=
  @List.erase Pt instBEqOfDecidableEq l v

/-- Squared screen-pixel distances from the cursor to each knot, where `tr`
is the opaque matplotlib data→screen transform (`ax.transData.transform`).
The source takes `np.hypot` (Euclidean distances); since `Real.sqrt` is
strictly monotone on squares, `argmin` over the hypot values equals `argmin`
over these squared values, which is all the handler uses. -/
def sepSq (tr : Pt → Pt) (ev : Event) (cp : List Pt) : List ℚ :=
  cp.map fun p =>
    let q := tr p
    (ev.x - q.1) * (ev.x - q.1) + (ev.y - q.2) * (ev.y - q.2)

/-- Minimum of a nonempty list, written with an explicit comparison. -/
def listMin : List ℚ → ℚ
  | [] => 0
  | [a] => a
  | a :: b :: t => if a ≤ listMin (b :: t) then a else listMin (b :: t)

/-- numpy `argmin`: index of the first minimal entry. -/
def argminIdx : List ℚ → ℕ
  | [] => 0
  | [_] => 0
  | a :: b :: t => if a ≤ listMin (b :: t) then 0 else argminIdx (b :: t) + 1

/-- `InteractiveCoFit.update` (source lines 376–411) restricted to the state
we track: when the anchor-extended knot list has ≥ 3 points, refit the
continuum over the fitting window `[i, j)` through the opaque spline; then
the source unpacks `zip(*self.contpoints[1:-1])`, which raises ValueError
when fewer than 3 knots are present (after the continuum was already
mutated in place), and when the ≥ 3 guard fails the later use of the
window indices `i, j` (bound only inside the guard) raises NameError.
Residuals, histogram, artists and the `_knots.jsn` save are display/IO
effects outside the tracked state. -/
def update (spline : List Pt → ℚ → ℚ) (wa : List ℚ) (st : CoFitState) :
    CoFitState × Option PyErr :=
  let cpts := st.anchor_start :: st.contpoints ++ [st.anchor_end]
  if 3 ≤ cpts.length then
    let i := st.indices.1
    let j := st.indices.2
    let co2 := st.continuum.mapIdx fun k c =>
      if i ≤ k ∧ k < j then spline cpts (wa.getD k 0) else c
    let st2 := { st with continuum := co2 }
    if st2.contpoints.length ≤ 2 then (st2, some PyErr.valueError)
    else (st2, none)
  else (st, some PyErr.nameError)

/-- `InteractiveCoFit.on_keypress` (source lines 413–512).  The source tests
`'q'`, then `'+'` and `'_'` (before the in-axes check), then returns unless
the cursor is in the main axes, then runs the `'a'/'3'` block followed by
the `'A'/'d'/'4'/'m'/'M'/'?'` chain; since one event carries one key, at
most one branch fires and the sequential flow equals this if/else chain.
Each successful edit ends in `update`.  Guards that merely print a message
leave the state untouched.  The `'M'` branch assigns its `y` variable only
when the cursor wavelength duplicates no knot, yet uses `y` unconditionally:
the duplicate case raises NameError with the state unmutated. -/
def on_keypress (lm : ℚ → Option ℚ) (tr : Pt → Pt) (spline : List Pt → ℚ → ℚ)
    (wa : List ℚ) (st : CoFitState) (ev : Event) : CoFitState × Option PyErr :=
  if ev.key = "q" then ({ st with finished := true }, none)
  else if ev.key = "+" then
    if st.contpoints = [] then (st, some PyErr.valueError)
    else update spline wa { st with contpoints := doubleKnots lm st.contpoints }
  else if ev.key = "_" then
    if st.contpoints = [] then (st, some PyErr.indexError)
    else update spline wa { st with contpoints := halveKnots st.contpoints }
  else if ev.inaxes = false then (st, none)
  else if ev.key = "a" ∨ ev.key = "3" then
    if between ev.xdata st.wmin st.wmax = false then (st, none)
    else if st.contpoints = [] ∨ ev.xdata ∉ st.contpoints.map Prod.fst then
      let cp2 := List.insertionSort ptLe (st.contpoints ++ [(ev.xdata, ev.ydata)])
      update spline wa { st with contpoints := cp2 }
    else (st, none)
  else if ev.key = "A" then
    if between ev.xdata st.wmin st.wmax = false then (st, none)
    else if st.contpoints = [] ∨ ev.xdata ∉ st.contpoints.map Prod.fst then
      let cp2 :=
        List.insertionSort ptLe
          (st.contpoints ++ [(ev.xdata, (lm ev.xdata).getD ev.ydata)])
      update spline wa { st with contpoints := cp2 }
    else (st, none)
  else if ev.key = "d" ∨ ev.key = "4" then
    if st.contpoints.length < 3 then (st, none)
    else
      let sep := sepSq tr ev st.contpoints
      let ind := argminIdx sep
      if ind = 0 ∨ ind = sep.length - 1 then (st, none)
      else
        match st.contpoints.get? ind with
        | none => (st, some PyErr.indexError)
        | some v =>
          update spline wa { st with contpoints := pyRemove st.contpoints v }
  else if ev.key = "m" then
    if between ev.xdata st.wmin st.wmax = false then (st, none)
    else if st.contpoints = [] then (st, some PyErr.valueError)
    else
      let sep := sepSq tr ev st.contpoints
      let ind := argminIdx sep
      if ind = 0 ∨ ind = sep.length - 1 then (st, none)
      else
        let cp2 := List.insertionSort ptLe (st.contpoints.set ind (ev.xdata, ev.ydata))
        update spline wa { st with contpoints := cp2 }
  else if ev.key = "M" then
    if between ev.xdata st.wmin st.wmax = false then (st, none)
    else if st.contpoints = [] then (st, some PyErr.valueError)
    else
      let sep := sepSq tr ev st.contpoints
      let ind := argminIdx sep
      if ind = 0 ∨ ind = sep.length - 1 then (st, none)
      else if ev.xdata ∉ st.contpoints.map Prod.fst then
        let cp2 :=
          List.insertionSort ptLe
            (st.contpoints.set ind (ev.xdata, (lm ev.xdata).getD ev.ydata))
        update spline wa { st with contpoints := cp2 }
      else (st, some PyErr.nameError)
  else (st, none)

/-- Run a sequence of keypress events, keeping the (mutated) state across
any exception that escapes a handler, as the live Python object does. -/
def runEvents (lm : ℚ → Option ℚ) (tr : Pt → Pt) (spline : List Pt → ℚ → ℚ)
    (wa : List ℚ) (st : CoFitState) : List Event → CoFitState
  | [] => st
  | ev :: evs => runEvents lm tr spline wa (on_keypress lm tr spline wa st ev).1 evs

theorem mem_of_getLast?_eq {l : List Pt} {a : Pt} (h : l.getLast? = some a) :
    a ∈ l := by
  cases l with
  | nil => simp at h
  | cons b t =>
    rw [List.getLast?_eq_getLast _ (by simp)] at h
    injection h with h
    exact h ▸ List.getLast_mem _

theorem ptLe_head_le {l : List Pt} {a z : Pt} (hs : l.Sorted ptLe)
    (hh : l.head? = some a) (hz : z ∈ l) : ptLe a z := by
  cases l with
  | nil => simp at hh
  | cons b t =>
    rw [List.head?_cons] at hh
    injection hh with hh
    rcases List.mem_cons.mp hz with h | h
    · rw [← hh, h]; exact ptLe_refl _
    · rw [← hh]; exact (List.sorted_cons.mp hs).1 z h

theorem ptLe_le_getLast {l : List Pt} {b z : Pt} (hs : l.Sorted ptLe)
    (hl : l.getLast? = some b) (hz : z ∈ l) : ptLe z b := by
  induction l with
  | nil => simp at hl
  | cons c t ih =>
    cases t with
    | nil =>
      have he : ([c] : List Pt).getLast? = some c := rfl
      rw [he] at hl
      injection hl with hl
      simp only [List.mem_singleton] at hz
      subst hl; subst hz; exact ptLe_refl z
    | cons d u =>
      rw [List.getLast?_cons_cons] at hl
      rcases List.mem_cons.mp hz with h | h
      · subst h
        have hbmem : b ∈ d :: u := mem_of_getLast?_eq hl
        exact (List.sorted_cons.mp hs).1 b hbmem
      · exact ih (List.sorted_cons.mp hs).2 hl h

theorem head?_eq_of_sorted_min {l : List Pt} {a : Pt} (hs : l.Sorted ptLe)
    (ha : a ∈ l) (hmin : ∀ z ∈ l, ptLe a z) : l.head? = some a := by
  cases l with
  | nil => simp at ha
  | cons b t =>
    have h1 : ptLe a b := hmin b (List.mem_cons_self b t)
    have h2 : ptLe b a := ptLe_head_le hs List.head?_cons ha
    rw [List.head?_cons, antisymm h2 h1]

theorem getLast?_eq_of_sorted_max {l : List Pt} {a : Pt} (hs : l.Sorted ptLe)
    (ha : a ∈ l) (hmax : ∀ z ∈ l, ptLe z a) : l.getLast? = some a := by
  cases hgl : l.getLast? with
  | none =>
    rw [List.getLast?_eq_none_iff] at hgl
    subst hgl; simp at ha
  | some c =>
    have h1 : ptLe c a := hmax c (mem_of_getLast?_eq hgl)
    have h2 : ptLe a c := ptLe_le_getLast hs hgl ha
    rw [antisymm h1 h2]

theorem eraseIdx_eq_take_drop_succ (l : List Pt) (i : ℕ) :
    l.eraseIdx i = l.take i ++ l.drop (i + 1) := by
  induction l generalizing i with
  | nil => simp
  | cons a t ih =>
    cases i with
    | zero => simp
    | succ j => simp [List.eraseIdx_cons_succ, ih j]

theorem pyRemove_sublist (l : List Pt) (v : Pt) : (pyRemove l v).Sublist l :=
  @List.erase_sublist Pt instBEqOfDecidableEq v l

theorem pyRemove_length {l : List Pt} {v : Pt} (h : v ∈ l) :
    (pyRemove l v).length = l.length - 1 :=
  @List.length_erase_of_mem Pt instBEqOfDecidableEq instLawfulBEq v l h

theorem perm_cons_pyRemove {l : List Pt} {v : Pt} (h : v ∈ l) :
    l.Perm (v :: pyRemove l v) :=
  List.perm_cons_erase h

/-- On a tuple-sorted list, removing the first occurrence of the value found
at index `i` gives the same list as deleting index `i` itself (equal values
in a sorted list sit in a contiguous run). -/
theorem pyRemove_get_eq_eraseIdx {l : List Pt} (hs : l.Sorted ptLe) {i : ℕ}
    {v : Pt} (hv : l.get? i = some v) : pyRemove l v = l.eraseIdx i := by
  rw [List.get?_eq_getElem?] at hv
  obtain ⟨hi, hgv⟩ := List.getElem?_eq_some_iff.mp hv
  have hmem : v ∈ l := hgv ▸ List.getElem_mem hi
  have h1 : l.Perm (v :: pyRemove l v) := perm_cons_pyRemove hmem
  have hsplit : l = l.take i ++ v :: l.drop (i + 1) := by
    conv_lhs => rw [(List.take_append_drop i l).symm]
    rw [List.drop_eq_getElem_cons hi, hgv]
  have h2 : l.Perm (v :: l.eraseIdx i) := by
    conv_lhs => rw [hsplit]
    rw [eraseIdx_eq_take_drop_succ]
    exact List.perm_middle
  have h3 : (v :: pyRemove l v).Perm (v :: l.eraseIdx i) := h1.symm.trans h2
  exact List.eq_of_perm_of_sorted h3.cons_inv
    (List.Pairwise.sublist (pyRemove_sublist l v) hs)
    (List.Pairwise.sublist (List.eraseIdx_sublist l i) hs)

theorem set_length_concat (l : List Pt) (x v : Pt) :
    (l ++ [x]).set l.length v = l ++ [v] := by
  induction l with
  | nil => rfl
  | cons a t ih => simp [ih]

theorem everyOther_sublist : ∀ l : List Pt, (everyOther l).Sublist l
  | [] => by simp [everyOther]
  | [a] => by simp [everyOther]
  | a :: b :: t => by
    have ih := everyOther_sublist t
    simp only [everyOther]
    exact (ih.cons₂ b).cons a

theorem everyOther_length : ∀ l : List Pt, (everyOther l).length = l.length / 2
  | [] => by simp [everyOther]
  | [a] => by simp [everyOther]
  | a :: b :: t => by
    have ih := everyOther_length t
    simp only [everyOther, List.length_cons, ih]
    omega

theorem midpoints_length : ∀ xs : List ℚ, (midpoints xs).length = xs.length - 1
  | [] => by simp [midpoints]
  | [a] => by simp [midpoints]
  | a :: b :: t => by
    have ih := midpoints_length (b :: t)
    simp only [midpoints, List.length_cons] at ih ⊢
    omega

theorem midpoints_bounds {lo hi : ℚ} : ∀ xs : List ℚ,
    (∀ a ∈ xs.dropLast, a < hi) → (∀ a ∈ xs, lo ≤ a) →
    (∀ b ∈ xs.drop 1, lo < b) → (∀ b ∈ xs, b ≤ hi) →
    ∀ m ∈ midpoints xs, lo < m ∧ m < hi
  | [] => by simp [midpoints]
  | [a] => by simp [midpoints]
  | a :: b :: t => by
    intro h1 h2 h3 h4 m hm
    simp only [midpoints, List.mem_cons] at hm
    rcases hm with hm | hm
    · subst hm
      have ha1 : a < hi := h1 a (by simp)
      have ha2 : lo ≤ a := h2 a (by simp)
      have hb1 : lo < b := h3 b (by simp)
      have hb2 : b ≤ hi := h4 b (by simp [List.mem_cons])
      constructor <;> [linarith; linarith]
    · refine midpoints_bounds (b :: t) ?_ ?_ ?_ ?_ m hm
      · intro z hz
        exact h1 z (by simp only [List.dropLast_cons₂, List.mem_cons]; right; exact hz)
      · intro z hz
        exact h2 z (List.mem_cons_of_mem a hz)
      · intro z hz
        exact h3 z (by simpa using List.mem_cons_of_mem b hz)
      · intro z hz
        exact h4 z (List.mem_cons_of_mem a hz)

theorem update_contpoints (spline : List Pt → ℚ → ℚ) (wa : List ℚ)
    (st : CoFitState) : (update spline wa st).1.contpoints = st.contpoints := by
  unfold update
  dsimp only
  split
  · split <;> rfl
  · rfl

theorem update_indices (spline : List Pt → ℚ → ℚ) (wa : List ℚ)
    (st : CoFitState) : (update spline wa st).1.indices = st.indices := by
  unfold update
  dsimp only
  split
  · split <;> rfl
  · rfl

theorem on_keypress_plus (lm : ℚ → Option ℚ) (tr : Pt → Pt)
    (spline : List Pt → ℚ → ℚ) (wa : List ℚ) (st : CoFitState) (ev : Event)
    (hk : ev.key = "+") (hne : st.contpoints ≠ []) :
    (on_keypress lm tr spline wa st ev).1.contpoints =
      doubleKnots lm st.contpoints := by
  unfold on_keypress
  rw [hk, if_neg (by decide), if_pos rfl, if_neg hne]
  exact update_contpoints spline wa _

theorem on_keypress_under (lm : ℚ → Option ℚ) (tr : Pt → Pt)
    (spline : List Pt → ℚ → ℚ) (wa : List ℚ) (st : CoFitState) (ev : Event)
    (hk : ev.key = "_") (hne : st.contpoints ≠ []) :
    (on_keypress lm tr spline wa st ev).1.contpoints =
      halveKnots st.contpoints := by
  unfold on_keypress
  rw [hk, if_neg (by decide), if_neg (by decide), if_pos rfl, if_neg hne]
  exact update_contpoints spline wa _

theorem on_keypress_add (lm : ℚ → Option ℚ) (tr : Pt → Pt)
    (spline : List Pt → ℚ → ℚ) (wa : List ℚ) (st : CoFitState) (ev : Event)
    (hk : ev.key = "a" ∨ ev.key = "3") (hin : ev.inaxes = true)
    (hb : between ev.xdata st.wmin st.wmax = true)
    (hnew : st.contpoints = [] ∨ ev.xdata ∉ st.contpoints.map Prod.fst) :
    (on_keypress lm tr spline wa st ev).1.contpoints =
      List.insertionSort ptLe (st.contpoints ++ [(ev.xdata, ev.ydata)]) := by
  unfold on_keypress
  rcases hk with hk | hk <;>
  · rw [hk, if_neg (by decide), if_neg (by decide), if_neg (by decide),
        if_neg (by rw [hin]; decide), if_pos (by decide),
        if_neg (by rw [hb]; decide), if_pos hnew]
    exact update_contpoints spline wa _

theorem on_keypress_delete (lm : ℚ → Option ℚ) (tr : Pt → Pt)
    (spline : List Pt → ℚ → ℚ) (wa : List ℚ) (st : CoFitState) (ev : Event)
    (v : Pt) (hk : ev.key = "d" ∨ ev.key = "4") (hin : ev.inaxes = true)
    (h3 : ¬ st.contpoints.length < 3)
    (hv : st.contpoints.get? (argminIdx (sepSq tr ev st.contpoints)) = some v)
    (h0 : argminIdx (sepSq tr ev st.contpoints) ≠ 0)
    (h1 : argminIdx (sepSq tr ev st.contpoints) ≠
      (sepSq tr ev st.contpoints).length - 1) :
    (on_keypress lm tr spline wa st ev).1.contpoints =
      pyRemove st.contpoints v := by
  unfold on_keypress
  rcases hk with hk | hk <;>
  · rw [hk, if_neg (by decide), if_neg (by decide), if_neg (by decide),
        if_neg (by rw [hin]; decide), if_neg (by decide), if_neg (by decide),
        if_pos (by decide), if_neg h3]
    dsimp only
    rw [if_neg (by exact not_or.mpr ⟨h0, h1⟩), hv]
    exact update_contpoints spline wa _

theorem on_keypress_delete_reject (lm : ℚ → Option ℚ) (tr : Pt → Pt)
    (spline : List Pt → ℚ → ℚ) (wa : List ℚ) (st : CoFitState) (ev : Event)
    (hk : ev.key = "d" ∨ ev.key = "4") (hin : ev.inaxes = true)
    (hrej : st.contpoints.length < 3 ∨
      argminIdx (sepSq tr ev st.contpoints) = 0 ∨
      argminIdx (sepSq tr ev st.contpoints) =
        (sepSq tr ev st.contpoints).length - 1) :
    on_keypress lm tr spline wa st ev = (st, none) := by
  unfold on_keypress
  rcases hk with hk | hk <;>
  · rw [hk, if_neg (by decide), if_neg (by decide), if_neg (by decide),
        if_neg (by rw [hin]; decide), if_neg (by decide), if_neg (by decide),
        if_pos (by decide)]
    by_cases h3 : st.contpoints.length < 3
    · rw [if_pos h3]
    · rw [if_neg h3]
      dsimp only
      rcases hrej with h | h
      · exact absurd h h3
      · rw [if_pos h]

theorem on_keypress_move (lm : ℚ → Option ℚ) (tr : Pt → Pt)
    (spline : List Pt → ℚ → ℚ) (wa : List ℚ) (st : CoFitState) (ev : Event)
    (hk : ev.key = "m") (hin : ev.inaxes = true)
    (hb : between ev.xdata st.wmin st.wmax = true)
    (hne : st.contpoints ≠ [])
    (h0 : argminIdx (sepSq tr ev st.contpoints) ≠ 0)
    (h1 : argminIdx (sepSq tr ev st.contpoints) ≠
      (sepSq tr ev st.contpoints).length - 1) :
    (on_keypress lm tr spline wa st ev).1.contpoints =
      List.insertionSort ptLe
        (st.contpoints.set (argminIdx (sepSq tr ev st.contpoints))
          (ev.xdata, ev.ydata)) := by
  unfold on_keypress
  rw [hk, if_neg (by decide), if_neg (by decide), if_neg (by decide),
      if_neg (by rw [hin]; decide), if_neg (by decide), if_neg (by decide),
      if_neg (by decide), if_pos rfl, if_neg (by rw [hb]; decide), if_neg hne]
  dsimp only
  rw [if_neg (by exact not_or.mpr ⟨h0, h1⟩)]
  exact update_contpoints spline wa _

theorem on_keypress_moveM (lm : ℚ → Option ℚ) (tr : Pt → Pt)
    (spline : List Pt → ℚ → ℚ) (wa : List ℚ) (st : CoFitState) (ev : Event)
    (hk : ev.key = "M") (hin : ev.inaxes = true)
    (hb : between ev.xdata st.wmin st.wmax = true)
    (hne : st.contpoints ≠ [])
    (h0 : argminIdx (sepSq tr ev st.contpoints) ≠ 0)
    (h1 : argminIdx (sepSq tr ev st.contpoints) ≠
      (sepSq tr ev st.contpoints).length - 1)
    (hnd : ev.xdata ∉ st.contpoints.map Prod.fst) :
    (on_keypress lm tr spline wa st ev).1.contpoints =
      List.insertionSort ptLe
        (st.contpoints.set (argminIdx (sepSq tr ev st.contpoints))
          (ev.xdata, (lm ev.xdata).getD ev.ydata)) := by
  unfold on_keypress
  rw [hk, if_neg (by decide), if_neg (by decide), if_neg (by decide),
      if_neg (by rw [hin]; decide), if_neg (by decide), if_neg (by decide),
      if_neg (by decide), if_neg (by decide), if_pos rfl,
      if_neg (by rw [hb]; decide), if_neg hne]
  dsimp only
  rw [if_neg (by exact not_or.mpr ⟨h0, h1⟩), if_pos hnd]
  exact update_contpoints spline wa _

theorem on_keypress_moveM_nameError (lm : ℚ → Option ℚ) (tr : Pt → Pt)
    (spline : List Pt → ℚ → ℚ) (wa : List ℚ) (st : CoFitState) (ev : Event)
    (hk : ev.key = "M") (hin : ev.inaxes = true)
    (hb : between ev.xdata st.wmin st.wmax = true)
    (hne : st.contpoints ≠ [])
    (h0 : argminIdx (sepSq tr ev st.contpoints) ≠ 0)
    (h1 : argminIdx (sepSq tr ev st.contpoints) ≠
      (sepSq tr ev st.contpoints).length - 1)
    (hdup : ev.xdata ∈ st.contpoints.map Prod.fst) :
    on_keypress lm tr spline wa st ev = (st, some PyErr.nameError) := by
  unfold on_keypress
  rw [hk, if_neg (by decide), if_neg (by decide), if_neg (by decide),
      if_neg (by rw [hin]; decide), if_neg (by decide), if_neg (by decide),
      if_neg (by decide), if_neg (by decide), if_pos rfl,
      if_neg (by rw [hb]; decide), if_neg hne]
  dsimp only
  rw [if_neg (by exact not_or.mpr ⟨h0, h1⟩), if_neg (by simpa using hdup)]

theorem on_keypress_move_reject_window (lm : ℚ → Option ℚ) (tr : Pt → Pt)
    (spline : List Pt → ℚ → ℚ) (wa : List ℚ) (st : CoFitState) (ev : Event)
    (hk : ev.key = "m" ∨ ev.key = "M") (hin : ev.inaxes = true)
    (hb : between ev.xdata st.wmin st.wmax = false) :
    on_keypress lm tr spline wa st ev = (st, none) := by
  unfold on_keypress
  rcases hk with hk | hk
  · rw [hk, if_neg (by decide), if_neg (by decide), if_neg (by decide),
        if_neg (by rw [hin]; decide), if_neg (by decide), if_neg (by decide),
        if_neg (by decide), if_pos rfl, if_pos hb]
  · rw [hk, if_neg (by decide), if_neg (by decide), if_neg (by decide),
        if_neg (by rw [hin]; decide), if_neg (by decide), if_neg (by decide),
        if_neg (by decide), if_neg (by decide), if_pos rfl, if_pos hb]

theorem on_keypress_move_reject_edge (lm : ℚ → Option ℚ) (tr : Pt → Pt)
    (spline : List Pt → ℚ → ℚ) (wa : List ℚ) (st : CoFitState) (ev : Event)
    (hk : ev.key = "m" ∨ ev.key = "M") (hin : ev.inaxes = true)
    (hb : between ev.xdata st.wmin st.wmax = true)
    (hne : st.contpoints ≠ [])
    (hedge : argminIdx (sepSq tr ev st.contpoints) = 0 ∨
      argminIdx (sepSq tr ev st.contpoints) =
        (sepSq tr ev st.contpoints).length - 1) :
    on_keypress lm tr spline wa st ev = (st, none) := by
  unfold on_keypress
  rcases hk with hk | hk <;>
  · rw [hk, if_neg (by decide), if_neg (by decide), if_neg (by decide),
        if_neg (by rw [hin]; decide), if_neg (by decide), if_neg (by decide),
        if_neg (by decide)]
    first
    | (rw [if_pos rfl, if_neg (by rw [hb]; decide), if_neg hne]
       dsimp only
       rw [if_pos hedge])
    | (rw [if_neg (by decide), if_pos rfl, if_neg (by rw [hb]; decide), if_neg hne]
       dsimp only
       rw [if_pos hedge])

theorem on_keypress_add_reject_window (lm : ℚ → Option ℚ) (tr : Pt → Pt)
    (spline : List Pt → ℚ → ℚ) (wa : List ℚ) (st : CoFitState) (ev : Event)
    (hk : ev.key = "a" ∨ ev.key = "3" ∨ ev.key = "A") (hin : ev.inaxes = true)
    (hb : between ev.xdata st.wmin st.wmax = false) :
    on_keypress lm tr spline wa st ev = (st, none) := by
  unfold on_keypress
  rcases hk with hk | hk | hk <;>
  · rw [hk, if_neg (by decide), if_neg (by decide), if_neg (by decide),
        if_neg (by rw [hin]; decide)]
    first
    | rw [if_pos (by decide), if_pos hb]
    | rw [if_neg (by decide), if_pos rfl, if_pos hb]

theorem on_keypress_add_reject_dup (lm : ℚ → Option ℚ) (tr : Pt → Pt)
    (spline : List Pt → ℚ → ℚ) (wa : List ℚ) (st : CoFitState) (ev : Event)
    (hk : ev.key = "a" ∨ ev.key = "3" ∨ ev.key = "A") (hin : ev.inaxes = true)
    (hb : between ev.xdata st.wmin st.wmax = true)
    (hne : st.contpoints ≠ [])
    (hdup : ev.xdata ∈ st.contpoints.map Prod.fst) :
    on_keypress lm tr spline wa st ev = (st, none) := by
  unfold on_keypress
  have hcond : ¬ (st.contpoints = [] ∨ ev.xdata ∉ st.contpoints.map Prod.fst) :=
    not_or.mpr ⟨hne, not_not.mpr hdup⟩
  rcases hk with hk | hk | hk <;>
  · rw [hk, if_neg (by decide), if_neg (by decide), if_neg (by decide),
        if_neg (by rw [hin]; decide)]
    first
    | rw [if_pos (by decide), if_neg (by rw [hb]; decide), if_neg hcond]
    | rw [if_neg (by decide), if_pos rfl, if_neg (by rw [hb]; decide), if_neg hcond]

theorem sepSq_length (tr : Pt → Pt) (ev : Event) (cp : List Pt) :
    (sepSq tr ev cp).length = cp.length := by
  simp [sepSq]

theorem argminIdx_lt_length : ∀ l : List ℚ, l ≠ [] → argminIdx l < l.length
  | [], h => absurd rfl h
  | [a], _ => by simp [argminIdx]
  | a :: b :: t, _ => by
    have ih := argminIdx_lt_length (b :: t) (by simp)
    simp only [argminIdx, List.length_cons]
    split
    · omega
    · simp only [List.length_cons] at ih
      omega

/-- C4: from the knot list [(4000, 1), (5000, 0.9)] a single '+' keypress
produces exactly one new interior knot at wavelength 4500 with flux 0.95,
the linear interpolation of the neighbours, when `local_median` finds no
usable flux near 4500 (and so falls back to its default). -/
theorem c4_double_two_knots (lm : ℚ → Option ℚ) (tr : Pt → Pt)
    (spline : List Pt → ℚ → ℚ) (wa : List ℚ) (st : CoFitState) (ev : Event)
    (hcp : st.contpoints = [(4000, 1), (5000, 9/10)])
    (hk : ev.key = "+") (hlm : lm 4500 = none) :
    (on_keypress lm tr spline wa st ev).1.contpoints =
      [(4000, 1), (4500, 19/20), (5000, 9/10)] := by
  rw [on_keypress_plus lm tr spline wa st ev hk (by rw [hcp]; decide), hcp]
  unfold doubleKnots
  norm_num [midpoints, npInterp, hlm]
  decide

/-- Fixed interpretations of the opaque collaborators, for witnesses:
`local_median` finding no good pixels, the identity data→screen transform
and a zero spline. -/
def lmNone : ℚ → Option ℚ := fun _ => none

def trId : Pt → Pt := fun p => p

def splineZero : List Pt → ℚ → ℚ := fun _ _ => 0

theorem c4_double_two_knots_witness :
    (on_keypress lmNone trId splineZero []
      { contpoints := [(4000, 1), (5000, 9/10)], continuum := [],
        indices := (0, 0), anchor_start := (0, 0), anchor_end := (0, 0),
        wmin := 4000, wmax := 5000, finished := false }
      { key := "+", inaxes := false, xdata := 0, ydata := 0,
        x := 0, y := 0 }).1.contpoints =
      [(4000, 1), (4500, 19/20), (5000, 9/10)] :=
  c4_double_two_knots lmNone trId splineZero [] _ _ rfl rfl rfl

/-- C3: a delete keypress ('d' or '4') inside the main axes removes exactly
the knot at the argmin of the screen-pixel distances to the cursor, unless
fewer than 3 knots remain or that nearest knot is the first or last list
entry, in which cases the knot list is unchanged. -/
theorem c3_delete_nearest (lm : ℚ → Option ℚ) (tr : Pt → Pt)
    (spline : List Pt → ℚ → ℚ) (wa : List ℚ) (st : CoFitState) (ev : Event)
    (hk : ev.key = "d" ∨ ev.key = "4") (hin : ev.inaxes = true)
    (hs : st.contpoints.Sorted ptLe) :
    ((3 ≤ st.contpoints.length ∧
        argminIdx (sepSq tr ev st.contpoints) ≠ 0 ∧
        argminIdx (sepSq tr ev st.contpoints) ≠ st.contpoints.length - 1) →
      (on_keypress lm tr spline wa st ev).1.contpoints =
        st.contpoints.eraseIdx (argminIdx (sepSq tr ev st.contpoints))) ∧
    ((st.contpoints.length < 3 ∨
        argminIdx (sepSq tr ev st.contpoints) = 0 ∨
        argminIdx (sepSq tr ev st.contpoints) = st.contpoints.length - 1) →
      (on_keypress lm tr spline wa st ev).1.contpoints = st.contpoints) := by
  constructor
  · rintro ⟨h3, h0, h1⟩
    have hlt : argminIdx (sepSq tr ev st.contpoints) < st.contpoints.length := by
      have := argminIdx_lt_length (sepSq tr ev st.contpoints)
        (by
          intro hnil
          rw [← List.length_eq_zero] at hnil
          rw [sepSq_length] at hnil
          omega)
      rwa [sepSq_length] at this
    have hv : st.contpoints.get? (argminIdx (sepSq tr ev st.contpoints)) =
        some (st.contpoints.get ⟨argminIdx (sepSq tr ev st.contpoints), hlt⟩) := by
      rw [List.get?_eq_getElem?]
      exact List.getElem?_eq_getElem hlt
    rw [on_keypress_delete lm tr spline wa st ev _ hk hin (by omega) hv h0
      (by rwa [sepSq_length])]
    exact pyRemove_get_eq_eraseIdx hs hv
  · intro hrej
    rw [on_keypress_delete_reject lm tr spline wa st ev hk hin
      (by rwa [sepSq_length])]

theorem c3_delete_nearest_witness :
    (on_keypress lmNone trId splineZero []
      { contpoints := [(0, 0), (5, 1), (10, 0)], continuum := [],
        indices := (0, 0), anchor_start := (0, 0), anchor_end := (0, 0),
        wmin := 0, wmax := 10, finished := false }
      { key := "d", inaxes := true, xdata := 5, ydata := 1,
        x := 5, y := 1 }).1.contpoints = [((0 : ℚ), (0 : ℚ)), (10, 0)] := by
  have h := (c3_delete_nearest lmNone trId splineZero []
    { contpoints := [(0, 0), (5, 1), (10, 0)], continuum := [],
      indices := (0, 0), anchor_start := (0, 0), anchor_end := (0, 0),
      wmin := 0, wmax := 10, finished := false }
    { key := "d", inaxes := true, xdata := 5, ydata := 1, x := 5, y := 1 }
    (Or.inl rfl) rfl (by decide)).1
    (by refine ⟨by decide, ?_, ?_⟩ <;> norm_num [sepSq, argminIdx, listMin, trId])
  rw [h]
  norm_num [sepSq, argminIdx, listMin, trId]

/-- C10: pressing 'M' inside the main axes and the fitting window with the
cursor wavelength exactly equal to an existing knot wavelength, when the
nearest knot is interior, raises an unhandled NameError (the `y` variable is
assigned only in the non-duplicate case yet used unconditionally) instead of
rejecting or applying the move; the state is left unmutated. -/
theorem c10_moveM_duplicate_nameError (lm : ℚ → Option ℚ) (tr : Pt → Pt)
    (spline : List Pt → ℚ → ℚ) (wa : List ℚ) (st : CoFitState) (ev : Event)
    (hk : ev.key = "M") (hin : ev.inaxes = true)
    (hb : between ev.xdata st.wmin st.wmax = true)
    (hne : st.contpoints ≠ [])
    (h0 : argminIdx (sepSq tr ev st.contpoints) ≠ 0)
    (h1 : argminIdx (sepSq tr ev st.contpoints) ≠ st.contpoints.length - 1)
    (hdup : ev.xdata ∈ st.contpoints.map Prod.fst) :
    on_keypress lm tr spline wa st ev = (st, some PyErr.nameError) :=
  on_keypress_moveM_nameError lm tr spline wa st ev hk hin hb hne h0
    (by rwa [sepSq_length]) hdup

theorem c10_moveM_duplicate_nameError_witness :
    on_keypress lmNone trId splineZero []
      { contpoints := [(0, 0), (5, 1), (10, 0)], continuum := [],
        indices := (0, 0), anchor_start := (0, 0), anchor_end := (0, 0),
        wmin := 0, wmax := 10, finished := false }
      { key := "M", inaxes := true, xdata := 5, ydata := 2, x := 5, y := 1 } =
    ({ contpoints := [(0, 0), (5, 1), (10, 0)], continuum := [],
        indices := (0, 0), anchor_start := (0, 0), anchor_end := (0, 0),
        wmin := 0, wmax := 10, finished := false }, some PyErr.nameError) :=
  c10_moveM_duplicate_nameError lmNone trId splineZero [] _ _ rfl rfl
    (by decide) (by decide)
    (by norm_num [sepSq, argminIdx, listMin, trId])
    (by norm_num [sepSq, argminIdx, listMin, trId])
    (by decide)

/-- C9: every rejected add, delete or move event — cursor outside the
fitting window, fewer than 3 knots at a delete, duplicate wavelength at an
add, or nearest knot an edge anchor — leaves the whole state (knot list,
continuum, window indices) exactly as it was, with no exception. -/
theorem c9_rejection_no_mutation (lm : ℚ → Option ℚ) (tr : Pt → Pt)
    (spline : List Pt → ℚ → ℚ) (wa : List ℚ) (st : CoFitState) (ev : Event)
    (hin : ev.inaxes = true)
    (hrej :
      ((ev.key = "a" ∨ ev.key = "3" ∨ ev.key = "A" ∨ ev.key = "m" ∨
          ev.key = "M") ∧ between ev.xdata st.wmin st.wmax = false) ∨
      ((ev.key = "d" ∨ ev.key = "4") ∧ st.contpoints.length < 3) ∨
      ((ev.key = "a" ∨ ev.key = "3" ∨ ev.key = "A") ∧
        between ev.xdata st.wmin st.wmax = true ∧ st.contpoints ≠ [] ∧
        ev.xdata ∈ st.contpoints.map Prod.fst) ∨
      ((ev.key = "d" ∨ ev.key = "4") ∧ ¬ st.contpoints.length < 3 ∧
        (argminIdx (sepSq tr ev st.contpoints) = 0 ∨
          argminIdx (sepSq tr ev st.contpoints) = st.contpoints.length - 1)) ∨
      ((ev.key = "m" ∨ ev.key = "M") ∧
        between ev.xdata st.wmin st.wmax = true ∧ st.contpoints ≠ [] ∧
        (argminIdx (sepSq tr ev st.contpoints) = 0 ∨
          argminIdx (sepSq tr ev st.contpoints) = st.contpoints.length - 1))) :
    on_keypress lm tr spline wa st ev = (st, none) := by
  rcases hrej with ⟨hk, hb⟩ | ⟨hk, h3⟩ | ⟨hk, hb, hne, hdup⟩ |
    ⟨hk, h3, hedge⟩ | ⟨hk, hb, hne, hedge⟩
  · rcases hk with hk | hk | hk | hk | hk
    · exact on_keypress_add_reject_window lm tr spline wa st ev (Or.inl hk) hin hb
    · exact on_keypress_add_reject_window lm tr spline wa st ev
        (Or.inr (Or.inl hk)) hin hb
    · exact on_keypress_add_reject_window lm tr spline wa st ev
        (Or.inr (Or.inr hk)) hin hb
    · exact on_keypress_move_reject_window lm tr spline wa st ev (Or.inl hk) hin hb
    · exact on_keypress_move_reject_window lm tr spline wa st ev (Or.inr hk) hin hb
  · exact on_keypress_delete_reject lm tr spline wa st ev hk hin (Or.inl h3)
  · exact on_keypress_add_reject_dup lm tr spline wa st ev hk hin hb hne hdup
  · refine on_keypress_delete_reject lm tr spline wa st ev hk hin (Or.inr ?_)
    rwa [sepSq_length]
  · refine on_keypress_move_reject_edge lm tr spline wa st ev hk hin hb hne ?_
    rwa [sepSq_length]

theorem c9_rejection_no_mutation_witness :
    on_keypress lmNone trId splineZero []
      { contpoints := [(0, 0), (10, 0)], continuum := [3, 4, 5],
        indices := (1, 2), anchor_start := (0, 0), anchor_end := (0, 0),
        wmin := 0, wmax := 10, finished := false }
      { key := "d", inaxes := true, xdata := 5, ydata := 1, x := 5, y := 1 } =
    ({ contpoints := [(0, 0), (10, 0)], continuum := [3, 4, 5],
        indices := (1, 2), anchor_start := (0, 0), anchor_end := (0, 0),
        wmin := 0, wmax := 10, finished := false }, none) :=
  c9_rejection_no_mutation lmNone trId splineZero [] _ _ rfl
    (Or.inr (Or.inl ⟨Or.inl rfl, by decide⟩))

theorem between_of_lt {x vmin vmax : ℚ} (h1 : vmin < x) (h2 : x < vmax) :
    between x vmin vmax = true := by
  simp only [between, decide_eq_true_eq]
  exact ⟨le_of_lt h1, h2⟩

/-- Inserting a point into a sorted list by append-and-sort and then
removing the first occurrence of that point restores the original list. -/
theorem pyRemove_insertionSort_append {cp : List Pt} (hs : cp.Sorted ptLe)
    (p : Pt) : pyRemove (List.insertionSort ptLe (cp ++ [p])) p = cp := by
  have hperm : (List.insertionSort ptLe (cp ++ [p])).Perm (cp ++ [p]) :=
    List.perm_insertionSort ptLe (cp ++ [p])
  have hmem : p ∈ List.insertionSort ptLe (cp ++ [p]) :=
    hperm.mem_iff.mpr (by simp)
  have h1 : (List.insertionSort ptLe (cp ++ [p])).Perm
      (p :: pyRemove (List.insertionSort ptLe (cp ++ [p])) p) :=
    perm_cons_pyRemove hmem
  have h2 : (List.insertionSort ptLe (cp ++ [p])).Perm (p :: cp) :=
    hperm.trans (List.perm_append_singleton p cp)
  have h3 : (pyRemove (List.insertionSort ptLe (cp ++ [p])) p).Perm cp :=
    (h1.symm.trans h2).cons_inv
  exact List.eq_of_perm_of_sorted h3
    (List.Pairwise.sublist (pyRemove_sublist _ p)
      (List.sorted_insertionSort ptLe (cp ++ [p])))
    hs

/-- C6: with a sorted knot list, adding a knot via 'a' at a wavelength
strictly inside the fitting window and distinct from all existing knot
wavelengths, and then deleting via 'd' with at least 3 knots present, the
cursor nearest the added knot, and the added knot interior, restores the
knot list to exactly its pre-add state. -/
theorem c6_add_delete_roundtrip (lm : ℚ → Option ℚ) (tr : Pt → Pt)
    (spline : List Pt → ℚ → ℚ) (wa : List ℚ) (st : CoFitState)
    (ev1 ev2 : Event) (hs : st.contpoints.Sorted ptLe)
    (hk1 : ev1.key = "a") (hin1 : ev1.inaxes = true)
    (hx1 : st.wmin < ev1.xdata) (hx2 : ev1.xdata < st.wmax)
    (hdup : ev1.xdata ∉ st.contpoints.map Prod.fst)
    (hk2 : ev2.key = "d" ∨ ev2.key = "4") (hin2 : ev2.inaxes = true)
    (h3 : 3 ≤ (on_keypress lm tr spline wa st ev1).1.contpoints.length)
    (hnear : (on_keypress lm tr spline wa st ev1).1.contpoints.get?
        (argminIdx (sepSq tr ev2 (on_keypress lm tr spline wa st ev1).1.contpoints)) =
      some (ev1.xdata, ev1.ydata))
    (h0 : argminIdx
        (sepSq tr ev2 (on_keypress lm tr spline wa st ev1).1.contpoints) ≠ 0)
    (h1 : argminIdx
        (sepSq tr ev2 (on_keypress lm tr spline wa st ev1).1.contpoints) ≠
      (on_keypress lm tr spline wa st ev1).1.contpoints.length - 1) :
    (on_keypress lm tr spline wa (on_keypress lm tr spline wa st ev1).1
      ev2).1.contpoints = st.contpoints := by
  have hstep1 : (on_keypress lm tr spline wa st ev1).1.contpoints =
      List.insertionSort ptLe (st.contpoints ++ [(ev1.xdata, ev1.ydata)]) :=
    on_keypress_add lm tr spline wa st ev1 (Or.inl hk1) hin1
      (between_of_lt hx1 hx2) (Or.inr hdup)
  have hdel : (on_keypress lm tr spline wa
      (on_keypress lm tr spline wa st ev1).1 ev2).1.contpoints =
      pyRemove (on_keypress lm tr spline wa st ev1).1.contpoints
        (ev1.xdata, ev1.ydata) :=
    on_keypress_delete lm tr spline wa _ ev2 _ hk2 hin2 (by omega) hnear h0
      (by rwa [sepSq_length])
  rw [hdel, hstep1]
  exact pyRemove_insertionSort_append hs (ev1.xdata, ev1.ydata)

theorem c6_add_delete_roundtrip_witness :
    (on_keypress lmNone trId splineZero []
      (on_keypress lmNone trId splineZero []
        { contpoints := [(0, 0), (10, 0)], continuum := [], indices := (0, 0),
          anchor_start := (0, 0), anchor_end := (0, 0), wmin := 0, wmax := 10,
          finished := false }
        { key := "a", inaxes := true, xdata := 5, ydata := 1,
          x := 0, y := 0 }).1
      { key := "d", inaxes := true, xdata := 5, ydata := 1,
        x := 5, y := 1 }).1.contpoints = [((0 : ℚ), (0 : ℚ)), (10, 0)] := by
  have h1 : (on_keypress lmNone trId splineZero []
      { contpoints := [(0, 0), (10, 0)], continuum := [], indices := (0, 0),
        anchor_start := (0, 0), anchor_end := (0, 0), wmin := 0, wmax := 10,
        finished := false }
      { key := "a", inaxes := true, xdata := 5, ydata := 1,
        x := 0, y := 0 }).1.contpoints = [(0, 0), (5, 1), (10, 0)] := by
    rw [on_keypress_add lmNone trId splineZero [] _ _ (Or.inl rfl) rfl
      (by decide) (Or.inr (by decide))]
    decide
  exact c6_add_delete_roundtrip lmNone trId splineZero [] _ _ _
    (by decide) rfl rfl (by decide) (by decide) (by decide) (Or.inl rfl) rfl
    (by rw [h1]; decide)
    (by rw [h1]; norm_num [sepSq, argminIdx, listMin, trId])
    (by rw [h1]; norm_num [sepSq, argminIdx, listMin, trId])
    (by rw [h1]; norm_num [sepSq, argminIdx, listMin, trId])

theorem mem_of_head?_eq {l : List Pt} {a : Pt} (h : l.head? = some a) :
    a ∈ l := by
  cases l with
  | nil => simp at h
  | cons b t =>
    rw [List.head?_cons] at h
    injection h with h
    exact h ▸ List.mem_cons_self b t

theorem exists_middle_of_head_getLast {l : List Pt} {a b : Pt}
    (h2 : 2 ≤ l.length) (hh : l.head? = some a) (hl : l.getLast? = some b) :
    ∃ mid, l = a :: (mid ++ [b]) := by
  cases l with
  | nil => simp at h2
  | cons a0 t =>
    rw [List.head?_cons] at hh
    injection hh with hh
    subst hh
    have ht : t ≠ [] := by
      intro h
      subst h
      simp at h2
    refine ⟨t.dropLast, ?_⟩
    have hsplit : t.dropLast ++ [t.getLast ht] = t :=
      List.dropLast_append_getLast ht
    have hlast : t.getLast ht = b := by
      have h1 : t.getLast? = some b := by
        cases t with
        | nil => exact absurd rfl ht
        | cons d u => rwa [List.getLast?_cons_cons] at hl
      rw [List.getLast?_eq_getLast _ ht] at h1
      injection h1
    rw [← hlast, hsplit]

/-- Head, last and length of the '+' (double knots) result: on a tuple-sorted
knot list whose interior wavelengths lie strictly between the first and last
wavelengths, doubling keeps the same first and last knots and produces
`2n - 1` knots from `n`. -/
theorem doubleKnots_head_last_length (lm : ℚ → Option ℚ) {cp : List Pt}
    {a b : Pt} (hs : cp.Sorted ptLe) (h2 : 2 ≤ cp.length)
    (hh : cp.head? = some a) (hl : cp.getLast? = some b)
    (hab : a.1 < b.1)
    (hint : ∀ p ∈ (cp.drop 1).dropLast, a.1 < p.1 ∧ p.1 < b.1) :
    (doubleKnots lm cp).head? = some a ∧
    (doubleKnots lm cp).getLast? = some b ∧
    (doubleKnots lm cp).length = 2 * cp.length - 1 := by
  obtain ⟨mid, hcp⟩ := exists_middle_of_head_getLast h2 hh hl
  have hmid : (cp.drop 1).dropLast = mid := by
    rw [hcp]
    simp [List.dropLast_concat]
  rw [hmid] at hint
  have hmap : cp.map Prod.fst = (a.1 :: mid.map Prod.fst) ++ [b.1] := by
    rw [hcp]
    simp
  have hxnew : ∀ m ∈ midpoints (cp.map Prod.fst), a.1 < m ∧ m < b.1 := by
    refine midpoints_bounds (cp.map Prod.fst) ?_ ?_ ?_ ?_
    · intro z hz
      rw [hmap, List.dropLast_concat] at hz
      rcases List.mem_cons.mp hz with h | h
      · exact h ▸ hab
      · obtain ⟨p, hp, hpz⟩ := List.mem_map.mp h
        exact hpz ▸ (hint p hp).2
    · intro z hz
      obtain ⟨p, hp, hpz⟩ := List.mem_map.mp hz
      exact hpz ▸ ptLe_imp_xLe (ptLe_head_le hs hh hp)
    · intro z hz
      rw [hmap] at hz
      simp only [List.cons_append, List.drop_succ_cons, List.drop_zero] at hz
      rcases List.mem_append.mp hz with h | h
      · obtain ⟨p, hp, hpz⟩ := List.mem_map.mp h
        exact hpz ▸ (hint p hp).1
      · simp only [List.mem_singleton] at h
        exact h ▸ hab
    · intro z hz
      obtain ⟨p, hp, hpz⟩ := List.mem_map.mp hz
      exact hpz ▸ ptLe_imp_xLe (ptLe_le_getLast hs hl hp)
  have hnew : ∀ q ∈ (midpoints (cp.map Prod.fst)).zip
      ((midpoints (cp.map Prod.fst)).map fun x =>
        (lm x).getD (npInterp (cp.map Prod.fst) (cp.map Prod.snd) x)),
      a.1 < q.1 ∧ q.1 < b.1 := by
    rintro ⟨qx, qy⟩ hq
    exact hxnew qx (List.of_mem_zip hq).1
  have hsorted1 : (doubleKnots lm cp).Sorted ptLe :=
    List.sorted_insertionSort ptLe _
  have hperm1 : (doubleKnots lm cp).Perm (cp ++ _) :=
    List.perm_insertionSort ptLe _
  refine ⟨?_, ?_, ?_⟩
  · refine head?_eq_of_sorted_min hsorted1 ?_ ?_
    · exact hperm1.mem_iff.mpr (List.mem_append_left _ (mem_of_head?_eq hh))
    · intro z hz
      rcases List.mem_append.mp (hperm1.mem_iff.mp hz) with h | h
      · exact ptLe_head_le hs hh h
      · exact Or.inl (hnew z h).1
  · refine getLast?_eq_of_sorted_max hsorted1 ?_ ?_
    · exact hperm1.mem_iff.mpr (List.mem_append_left _ (mem_of_getLast?_eq hl))
    · intro z hz
      rcases List.mem_append.mp (hperm1.mem_iff.mp hz) with h | h
      · exact ptLe_le_getLast hs hl h
      · exact Or.inl (hnew z h).2
  · have hlen : (doubleKnots lm cp).length = cp.length +
        ((midpoints (cp.map Prod.fst)).zip
          ((midpoints (cp.map Prod.fst)).map fun x =>
            (lm x).getD (npInterp (cp.map Prod.fst) (cp.map Prod.snd) x))).length := by
      unfold doubleKnots
      rw [List.length_insertionSort, List.length_append]
    rw [hlen, List.length_zip, List.length_map, midpoints_length,
      List.length_map]
    omega

/-- Head, last and length of the '_' (halve knots) result on a nonempty
list. -/
theorem halveKnots_spec {l : List Pt} (hne : l ≠ []) :
    (halveKnots l).head? = l.head? ∧ (halveKnots l).getLast? = l.getLast? ∧
    (halveKnots l).length = 2 + (l.length - 2) / 2 := by
  cases l with
  | nil => exact absurd rfl hne
  | cons a t =>
    refine ⟨?_, ?_, ?_⟩
    · simp [halveKnots]
    · simp only [halveKnots]
      rw [List.getLast?_concat]
      have hx : (a :: t).getLast? = some ((a :: t).getLast (by simp)) :=
        List.getLast?_eq_getLast _ (by simp)
      rw [hx, List.getLastD_eq_getLast?, hx]
      rfl
    · simp only [halveKnots, List.length_append, List.length_cons,
        List.length_nil, everyOther_length, List.length_dropLast,
        List.length_drop]
      omega

/-- C5: on a sorted knot list with all interior knot wavelengths strictly
between the first and last knot wavelengths, pressing '+' then '_' keeps the
same first and last entries and leaves at most as many interior knots as
before. -/
theorem c5_double_halve (lm : ℚ → Option ℚ) (tr : Pt → Pt)
    (spline : List Pt → ℚ → ℚ) (wa : List ℚ) (st : CoFitState)
    (ev1 ev2 : Event) (hk1 : ev1.key = "+") (hk2 : ev2.key = "_")
    (hs : st.contpoints.Sorted ptLe) (h2 : 2 ≤ st.contpoints.length)
    (a b : Pt) (hh : st.contpoints.head? = some a)
    (hl : st.contpoints.getLast? = some b) (hab : a.1 < b.1)
    (hint : ∀ p ∈ (st.contpoints.drop 1).dropLast, a.1 < p.1 ∧ p.1 < b.1) :
    (on_keypress lm tr spline wa (on_keypress lm tr spline wa st ev1).1
      ev2).1.contpoints.head? = some a ∧
    (on_keypress lm tr spline wa (on_keypress lm tr spline wa st ev1).1
      ev2).1.contpoints.getLast? = some b ∧
    (on_keypress lm tr spline wa (on_keypress lm tr spline wa st ev1).1
      ev2).1.contpoints.length - 2 ≤ st.contpoints.length - 2 := by
  have hne : st.contpoints ≠ [] := by
    intro h
    rw [h] at h2
    simp at h2
  have hstep1 : (on_keypress lm tr spline wa st ev1).1.contpoints =
      doubleKnots lm st.contpoints :=
    on_keypress_plus lm tr spline wa st ev1 hk1 hne
  obtain ⟨hd1, hd2, hd3⟩ :=
    doubleKnots_head_last_length lm hs h2 hh hl hab hint
  have hne1 : (on_keypress lm tr spline wa st ev1).1.contpoints ≠ [] := by
    rw [hstep1]
    intro h
    have := congrArg List.length h
    rw [hd3] at this
    simp at this
    omega
  have hstep2 : (on_keypress lm tr spline wa
      (on_keypress lm tr spline wa st ev1).1 ev2).1.contpoints =
      halveKnots (on_keypress lm tr spline wa st ev1).1.contpoints :=
    on_keypress_under lm tr spline wa _ ev2 hk2 hne1
  obtain ⟨hv1, hv2, hv3⟩ :=
    halveKnots_spec (l := (on_keypress lm tr spline wa st ev1).1.contpoints)
      hne1
  rw [hstep2]
  refine ⟨?_, ?_, ?_⟩
  · rw [hv1, hstep1, hd1]
  · rw [hv2, hstep1, hd2]
  · rw [hv3, hstep1, hd3]
    omega

theorem c5_double_halve_witness :
    (on_keypress lmNone trId splineZero []
      (on_keypress lmNone trId splineZero []
        { contpoints := [(0, 0), (4, 1), (10, 0)], continuum := [],
          indices := (0, 0), anchor_start := (0, 0), anchor_end := (0, 0),
          wmin := 0, wmax := 10, finished := false }
        { key := "+", inaxes := false, xdata := 0, ydata := 0,
          x := 0, y := 0 }).1
      { key := "_", inaxes := false, xdata := 0, ydata := 0,
        x := 0, y := 0 }).1.contpoints.head? = some ((0 : ℚ), (0 : ℚ)) ∧
    (on_keypress lmNone trId splineZero []
      (on_keypress lmNone trId splineZero []
        { contpoints := [(0, 0), (4, 1), (10, 0)], continuum := [],
          indices := (0, 0), anchor_start := (0, 0), anchor_end := (0, 0),
          wmin := 0, wmax := 10, finished := false }
        { key := "+", inaxes := false, xdata := 0, ydata := 0,
          x := 0, y := 0 }).1
      { key := "_", inaxes := false, xdata := 0, ydata := 0,
        x := 0, y := 0 }).1.contpoints.getLast? = some ((10 : ℚ), (0 : ℚ)) ∧
    (on_keypress lmNone trId splineZero []
      (on_keypress lmNone trId splineZero []
        { contpoints := [(0, 0), (4, 1), (10, 0)], continuum := [],
          indices := (0, 0), anchor_start := (0, 0), anchor_end := (0, 0),
          wmin := 0, wmax := 10, finished := false }
        { key := "+", inaxes := false, xdata := 0, ydata := 0,
          x := 0, y := 0 }).1
      { key := "_", inaxes := false, xdata := 0, ydata := 0,
        x := 0, y := 0 }).1.contpoints.length - 2 ≤
      ([((0 : ℚ), (0 : ℚ)), (4, 1), (10, 0)] : List Pt).length - 2 :=
  c5_double_halve lmNone trId splineZero [] _ _ _ rfl rfl (by decide)
    (by decide) (0, 0) (10, 0) rfl rfl (by decide) (by decide)

theorem sortedX_insertionSort (l : List Pt) :
    sortedX (List.insertionSort ptLe l) :=
  sortedX_of_sorted_ptLe (List.sorted_insertionSort ptLe l)

theorem doubleKnots_length (lm : ℚ → Option ℚ) (cp : List Pt) :
    (doubleKnots lm cp).length = 2 * cp.length - 1 := by
  unfold doubleKnots
  rw [List.length_insertionSort, List.length_append, List.length_zip,
    List.length_map, midpoints_length, List.length_map]
  cases cp with
  | nil => simp
  | cons a t => simp; omega

/-- With at least two knots, halving produces a sublist of the input. -/
theorem halveKnots_sublist {cp : List Pt} (h2 : 2 ≤ cp.length) :
    (halveKnots cp).Sublist cp := by
  cases cp with
  | nil => simp at h2
  | cons a t =>
    have htne : t ≠ [] := by
      intro h
      subst h
      simp at h2
    have hsplit : t.dropLast ++ [t.getLast htne] = t :=
      List.dropLast_append_getLast htne
    have hhead : (a :: t).headD (0, 0) = a := rfl
    have hlastd : (a :: t).getLastD (0, 0) = t.getLast htne := by
      rw [List.getLastD_eq_getLast?, List.getLast?_eq_getLast (a :: t) (by simp)]
      simp [List.getLast_cons htne]
    have hdrop : (a :: t).drop 1 = t := rfl
    unfold halveKnots
    rw [hhead, hlastd, hdrop]
    have hsub : (everyOther t.dropLast ++ [t.getLast htne]).Sublist
        (t.dropLast ++ [t.getLast htne]) :=
      (everyOther_sublist t.dropLast).append (List.Sublist.refl _)
    have : ([a] ++ (everyOther t.dropLast ++ [t.getLast htne])).Sublist
        ([a] ++ (t.dropLast ++ [t.getLast htne])) :=
      hsub.append_left [a]
    simpa [hsplit] using this

theorem on_keypress_q (lm : ℚ → Option ℚ) (tr : Pt → Pt)
    (spline : List Pt → ℚ → ℚ) (wa : List ℚ) (st : CoFitState) (ev : Event)
    (hk : ev.key = "q") :
    on_keypress lm tr spline wa st ev = ({ st with finished := true }, none) := by
  unfold on_keypress
  rw [hk, if_pos rfl]

theorem on_keypress_not_inaxes (lm : ℚ → Option ℚ) (tr : Pt → Pt)
    (spline : List Pt → ℚ → ℚ) (wa : List ℚ) (st : CoFitState) (ev : Event)
    (hq : ev.key ≠ "q") (hp : ev.key ≠ "+") (hu : ev.key ≠ "_")
    (hax : ev.inaxes = false) :
    on_keypress lm tr spline wa st ev = (st, none) := by
  unfold on_keypress
  rw [if_neg hq, if_neg hp, if_neg hu, if_pos hax]

theorem on_keypress_addA (lm : ℚ → Option ℚ) (tr : Pt → Pt)
    (spline : List Pt → ℚ → ℚ) (wa : List ℚ) (st : CoFitState) (ev : Event)
    (hk : ev.key = "A") (hin : ev.inaxes = true)
    (hb : between ev.xdata st.wmin st.wmax = true)
    (hnew : st.contpoints = [] ∨ ev.xdata ∉ st.contpoints.map Prod.fst) :
    (on_keypress lm tr spline wa st ev).1.contpoints =
      List.insertionSort ptLe
        (st.contpoints ++ [(ev.xdata, (lm ev.xdata).getD ev.ydata)]) := by
  unfold on_keypress
  rw [hk, if_neg (by decide), if_neg (by decide), if_neg (by decide),
      if_neg (by rw [hin]; decide), if_neg (by decide), if_pos rfl,
      if_neg (by rw [hb]; decide), if_pos hnew]
  exact update_contpoints spline wa _

theorem on_keypress_other (lm : ℚ → Option ℚ) (tr : Pt → Pt)
    (spline : List Pt → ℚ → ℚ) (wa : List ℚ) (st : CoFitState) (ev : Event)
    (hq : ev.key ≠ "q") (hp : ev.key ≠ "+") (hu : ev.key ≠ "_")
    (ha : ev.key ≠ "a") (h3 : ev.key ≠ "3") (hA : ev.key ≠ "A")
    (hd : ev.key ≠ "d") (h4 : ev.key ≠ "4") (hm : ev.key ≠ "m")
    (hM : ev.key ≠ "M") :
    on_keypress lm tr spline wa st ev = (st, none) := by
  unfold on_keypress
  rw [if_neg hq, if_neg hp, if_neg hu]
  split
  · rfl
  · have c1 : ¬ (ev.key = "a" ∨ ev.key = "3") := by
      rintro (h | h)
      exacts [ha h, h3 h]
    have c2 : ¬ (ev.key = "d" ∨ ev.key = "4") := by
      rintro (h | h)
      exacts [hd h, h4 h]
    rw [if_neg c1]
    first
    | rw [if_neg hA, if_neg c2, if_neg hm, if_neg hM]
    | rw [if_neg c2]

/-- C7 (amended), edit part: every keypress event preserves
"sorted by wavelength with at least 2 knots". -/
theorem c7_step (lm : ℚ → Option ℚ) (tr : Pt → Pt)
    (spline : List Pt → ℚ → ℚ) (wa : List ℚ) (st : CoFitState) (ev : Event)
    (hsx : sortedX st.contpoints) (hlen : 2 ≤ st.contpoints.length) :
    sortedX (on_keypress lm tr spline wa st ev).1.contpoints ∧
    2 ≤ (on_keypress lm tr spline wa st ev).1.contpoints.length := by
  have hne : st.contpoints ≠ [] := by
    intro h
    rw [h] at hlen
    simp at hlen
  by_cases hq : ev.key = "q"
  · rw [on_keypress_q lm tr spline wa st ev hq]
    exact ⟨hsx, hlen⟩
  by_cases hp : ev.key = "+"
  · rw [on_keypress_plus lm tr spline wa st ev hp hne]
    refine ⟨sortedX_insertionSort _, ?_⟩
    rw [doubleKnots_length]
    omega
  by_cases hu : ev.key = "_"
  · rw [on_keypress_under lm tr spline wa st ev hu hne]
    constructor
    · exact List.Pairwise.sublist (halveKnots_sublist hlen) hsx
    · unfold halveKnots
      rw [List.length_append, List.length_append, List.length_cons,
        List.length_nil, List.length_cons, List.length_nil]
      omega
  by_cases hax : ev.inaxes = true
  swap
  · rw [on_keypress_not_inaxes lm tr spline wa st ev hq hp hu
      (Bool.not_eq_true ev.inaxes ▸ hax)]
    exact ⟨hsx, hlen⟩
  by_cases haa : ev.key = "a" ∨ ev.key = "3"
  · by_cases hb : between ev.xdata st.wmin st.wmax = true
    · by_cases hnw : st.contpoints = [] ∨ ev.xdata ∉ st.contpoints.map Prod.fst
      · rw [on_keypress_add lm tr spline wa st ev haa hax hb hnw]
        refine ⟨sortedX_insertionSort _, ?_⟩
        rw [List.length_insertionSort, List.length_append]
        omega
      · rw [not_or, not_not] at hnw
        rw [on_keypress_add_reject_dup lm tr spline wa st ev
          (Or.elim haa Or.inl (fun h => Or.inr (Or.inl h))) hax hb hnw.1 hnw.2]
        exact ⟨hsx, hlen⟩
    · rw [on_keypress_add_reject_window lm tr spline wa st ev
        (Or.elim haa Or.inl (fun h => Or.inr (Or.inl h))) hax
        (Bool.not_eq_true _ ▸ hb)]
      exact ⟨hsx, hlen⟩
  by_cases hA : ev.key = "A"
  · by_cases hb : between ev.xdata st.wmin st.wmax = true
    · by_cases hnw : st.contpoints = [] ∨ ev.xdata ∉ st.contpoints.map Prod.fst
      · rw [on_keypress_addA lm tr spline wa st ev hA hax hb hnw]
        refine ⟨sortedX_insertionSort _, ?_⟩
        rw [List.length_insertionSort, List.length_append]
        omega
      · rw [not_or, not_not] at hnw
        rw [on_keypress_add_reject_dup lm tr spline wa st ev
          (Or.inr (Or.inr hA)) hax hb hnw.1 hnw.2]
        exact ⟨hsx, hlen⟩
    · rw [on_keypress_add_reject_window lm tr spline wa st ev
        (Or.inr (Or.inr hA)) hax (Bool.not_eq_true _ ▸ hb)]
      exact ⟨hsx, hlen⟩
  by_cases hdd : ev.key = "d" ∨ ev.key = "4"
  · by_cases h3 : st.contpoints.length < 3
    · rw [on_keypress_delete_reject lm tr spline wa st ev hdd hax (Or.inl h3)]
      exact ⟨hsx, hlen⟩
    by_cases hedge : argminIdx (sepSq tr ev st.contpoints) = 0 ∨
        argminIdx (sepSq tr ev st.contpoints) = st.contpoints.length - 1
    · rw [on_keypress_delete_reject lm tr spline wa st ev hdd hax
        (Or.inr (by rwa [sepSq_length]))]
      exact ⟨hsx, hlen⟩
    · rw [not_or] at hedge
      have hlt : argminIdx (sepSq tr ev st.contpoints) < st.contpoints.length := by
        have := argminIdx_lt_length (sepSq tr ev st.contpoints)
          (by
            intro hnil
            rw [← List.length_eq_zero, sepSq_length] at hnil
            omega)
        rwa [sepSq_length] at this
      have hv : st.contpoints.get? (argminIdx (sepSq tr ev st.contpoints)) =
          some (st.contpoints.get ⟨argminIdx (sepSq tr ev st.contpoints), hlt⟩) := by
        rw [List.get?_eq_getElem?]
        exact List.getElem?_eq_getElem hlt
      rw [on_keypress_delete lm tr spline wa st ev _ hdd hax h3 hv hedge.1
        (by rw [sepSq_length]; exact hedge.2)]
      have hmem : st.contpoints.get
          ⟨argminIdx (sepSq tr ev st.contpoints), hlt⟩ ∈ st.contpoints :=
        List.get_mem _ _ _
      refine ⟨List.Pairwise.sublist (pyRemove_sublist _ _) hsx, ?_⟩
      rw [pyRemove_length hmem]
      omega
  by_cases hm : ev.key = "m"
  · by_cases hb : between ev.xdata st.wmin st.wmax = true
    · by_cases hedge : argminIdx (sepSq tr ev st.contpoints) = 0 ∨
          argminIdx (sepSq tr ev st.contpoints) = st.contpoints.length - 1
      · rw [on_keypress_move_reject_edge lm tr spline wa st ev (Or.inl hm)
          hax hb hne (by rwa [sepSq_length])]
        exact ⟨hsx, hlen⟩
      · rw [not_or] at hedge
        rw [on_keypress_move lm tr spline wa st ev hm hax hb hne hedge.1
          (by rw [sepSq_length]; exact hedge.2)]
        refine ⟨sortedX_insertionSort _, ?_⟩
        rw [List.length_insertionSort, List.length_set]
        exact hlen
    · rw [on_keypress_move_reject_window lm tr spline wa st ev (Or.inl hm)
        hax (Bool.not_eq_true _ ▸ hb)]
      exact ⟨hsx, hlen⟩
  by_cases hM : ev.key = "M"
  · by_cases hb : between ev.xdata st.wmin st.wmax = true
    · by_cases hedge : argminIdx (sepSq tr ev st.contpoints) = 0 ∨
          argminIdx (sepSq tr ev st.contpoints) = st.contpoints.length - 1
      · rw [on_keypress_move_reject_edge lm tr spline wa st ev (Or.inr hM)
          hax hb hne (by rwa [sepSq_length])]
        exact ⟨hsx, hlen⟩
      · rw [not_or] at hedge
        by_cases hdup : ev.xdata ∈ st.contpoints.map Prod.fst
        · rw [on_keypress_moveM_nameError lm tr spline wa st ev hM hax hb hne
            hedge.1 (by rw [sepSq_length]; exact hedge.2) hdup]
          exact ⟨hsx, hlen⟩
        · rw [on_keypress_moveM lm tr spline wa st ev hM hax hb hne hedge.1
            (by rw [sepSq_length]; exact hedge.2) hdup]
          refine ⟨sortedX_insertionSort _, ?_⟩
          rw [List.length_insertionSort, List.length_set]
          exact hlen
    · rw [on_keypress_move_reject_window lm tr spline wa st ev (Or.inr hM)
        hax (Bool.not_eq_true _ ▸ hb)]
      exact ⟨hsx, hlen⟩
  · rw [on_keypress_other lm tr spline wa st ev hq hp hu
      (fun h => haa (Or.inl h)) (fun h => haa (Or.inr h)) hA
      (fun h => hdd (Or.inl h)) (fun h => hdd (Or.inr h)) hm hM]
    exact ⟨hsx, hlen⟩

/-- C7: a counterexample to the claimed post-initialization sortedness: with
wavelength grid [0,10,20,30,40] and input knots [(1,1),(2,1),(25,1)], the
endpoint snapping of `__init__` moves the first knot to wavelength 10 and
the last to 30, producing the knot list [(10,1),(2,1),(30,1)], which is not
sorted by wavelength. -/
theorem c7_counterexample :
    (initCoFit [0, 10, 20, 30, 40] [1, 1, 1, 1, 1]
      [(1, 1), (2, 1), (25, 1)]).map (fun st => st.contpoints) =
      some [(10, 1), (2, 1), (30, 1)] ∧
    ¬ sortedX [(10, 1), (2, 1), (30, 1)] := by
  constructor
  · decide
  · intro h
    unfold sortedX at h
    have := (List.sorted_cons.mp h).1 (2, 1) (by simp)
    unfold xLe at this
    norm_num at this

/-- Replacing the first and last entries of a tuple-sorted list (length at
least 2) keeps it sorted by wavelength provided the two new entries'
wavelengths still bound every entry's wavelength; the length is unchanged. -/
theorem set_ends_sortedX {s : List Pt} (hs : s.Sorted ptLe)
    (h2 : 2 ≤ s.length) (p q : Pt)
    (hb : ∀ z ∈ (s.set 0 p).set ((s.set 0 p).length - 1) q,
      (((s.set 0 p).set ((s.set 0 p).length - 1) q).headD (0, 0)).1 ≤ z.1 ∧
      z.1 ≤ (((s.set 0 p).set ((s.set 0 p).length - 1) q).getLastD (0, 0)).1) :
    sortedX ((s.set 0 p).set ((s.set 0 p).length - 1) q) ∧
    ((s.set 0 p).set ((s.set 0 p).length - 1) q).length = s.length := by
  cases s with
  | nil => simp at h2
  | cons f tail =>
    have htne : tail ≠ [] := by
      intro h
      subst h
      simp at h2
    have hsplit : tail.dropLast ++ [tail.getLast htne] = tail :=
      List.dropLast_append_getLast htne
    have hshape : ((f :: tail).set 0 p).set
        (((f :: tail).set 0 p).length - 1) q = p :: (tail.dropLast ++ [q]) := by
      rw [List.set_cons_zero, List.length_cons]
      have hlen1 : tail.length + 1 - 1 = tail.dropLast.length + 1 := by
        rw [List.length_dropLast]
        have : 1 ≤ tail.length := by
          cases tail with
          | nil => exact absurd rfl htne
          | cons a u => simp
        omega
      rw [hlen1]
      conv_lhs => rw [← hsplit]
      rw [List.set_cons_succ, List.dropLast_concat, set_length_concat]
    rw [hshape] at hb ⊢
    have hgl : (p :: (tail.dropLast ++ [q])).getLastD (0, 0) = q := by
      rw [List.getLastD_eq_getLast?,
        show p :: (tail.dropLast ++ [q]) = (p :: tail.dropLast) ++ [q] from rfl,
        List.getLast?_concat]
      rfl
    rw [show (p :: (tail.dropLast ++ [q])).headD (0, 0) = p from rfl, hgl] at hb
    constructor
    · unfold sortedX
      rw [List.sorted_cons]
      constructor
      · intro z hz
        exact (hb z (List.mem_cons_of_mem p hz)).1
      · show List.Pairwise xLe (tail.dropLast ++ [q])
        rw [List.pairwise_append]
        refine ⟨?_, by simp, ?_⟩
        · have htails : tail.Sorted ptLe := (List.sorted_cons.mp hs).2
          exact List.Pairwise.sublist (List.dropLast_sublist tail)
            (sortedX_of_sorted_ptLe htails)
        · intro u hu v hv
          rw [List.mem_singleton] at hv
          subst hv
          exact (hb u (List.mem_cons_of_mem p
            (List.mem_append_left _ hu))).2
    · rw [List.length_cons, List.length_append, List.length_dropLast]
      have : 1 ≤ tail.length := by
        cases tail with
        | nil => exact absurd rfl htne
        | cons a u => simp
      simp
      omega

/-- C7 (amended): (a) after initialization with at least two input knots the
knot list has at least 2 points, and it is sorted by wavelength provided the
snapped first and last entries still bound every knot wavelength (the
counterexample theorem above shows sortedness can otherwise fail);
(b) every keypress event preserves "sorted by wavelength and at least 2
knots". -/
theorem c7_knot_invariant :
    (∀ (wa co : List ℚ) (cp0 : List Pt) (st : CoFitState),
      initCoFit wa co cp0 = some st → 2 ≤ cp0.length →
      (∀ z ∈ st.contpoints,
        (st.contpoints.headD (0, 0)).1 ≤ z.1 ∧
        z.1 ≤ (st.contpoints.getLastD (0, 0)).1) →
      sortedX st.contpoints ∧ 2 ≤ st.contpoints.length) ∧
    (∀ (lm : ℚ → Option ℚ) (tr : Pt → Pt) (spline : List Pt → ℚ → ℚ)
      (wa : List ℚ) (st : CoFitState) (ev : Event),
      sortedX st.contpoints → 2 ≤ st.contpoints.length →
      sortedX (on_keypress lm tr spline wa st ev).1.contpoints ∧
      2 ≤ (on_keypress lm tr spline wa st ev).1.contpoints.length) := by
  constructor
  · intro wa co cp0 st hinit h2 hb
    unfold initCoFit at hinit
    dsimp only at hinit
    split at hinit
    rotate_right
    · exact absurd hinit (by simp)
    split at hinit
    · exact absurd hinit (by simp)
    split at hinit
    rotate_right
    · exact absurd hinit (by simp)
    split at hinit
    rotate_right
    · exact absurd hinit (by simp)
    injection hinit with hst
    subst hst
    dsimp only at hb ⊢
    have hlen : 2 ≤ (List.insertionSort ptLe cp0).length := by
      rw [List.length_insertionSort]
      exact h2
    obtain ⟨hsx, hleq⟩ :=
      set_ends_sortedX (List.sorted_insertionSort ptLe cp0) hlen _ _ hb
    refine ⟨hsx, ?_⟩
    rw [hleq]
    exact hlen
  · intro lm tr spline wa st ev h1 h2
    exact c7_step lm tr spline wa st ev h1 h2

theorem c7_knot_invariant_witness :
    (sortedX
        ({ contpoints := [(1, 1), (2, 1)], continuum := [1, 1, 1, 1],
           indices := (1, 2), anchor_start := (0, 1), anchor_end := (3, 1),
           wmin := 1, wmax := 2, finished := false } : CoFitState).contpoints ∧
      2 ≤
        ({ contpoints := [(1, 1), (2, 1)], continuum := [1, 1, 1, 1],
           indices := (1, 2), anchor_start := (0, 1), anchor_end := (3, 1),
           wmin := 1, wmax := 2,
           finished := false } : CoFitState).contpoints.length) ∧
    (sortedX (on_keypress lmNone trId splineZero []
        { contpoints := [(0, 0), (10, 0)], continuum := [], indices := (0, 0),
          anchor_start := (0, 0), anchor_end := (0, 0), wmin := 0, wmax := 10,
          finished := false }
        { key := "?", inaxes := true, xdata := 0, ydata := 0,
          x := 0, y := 0 }).1.contpoints ∧
      2 ≤ (on_keypress lmNone trId splineZero []
        { contpoints := [(0, 0), (10, 0)], continuum := [], indices := (0, 0),
          anchor_start := (0, 0), anchor_end := (0, 0), wmin := 0, wmax := 10,
          finished := false }
        { key := "?", inaxes := true, xdata := 0, ydata := 0,
          x := 0, y := 0 }).1.contpoints.length) :=
  ⟨c7_knot_invariant.1 [0, 1, 2, 3] [1, 1, 1, 1] [(1, 1), (2, 1)] _
      (by decide) (by decide) (by decide),
    c7_knot_invariant.2 lmNone trId splineZero []
      { contpoints := [(0, 0), (10, 0)], continuum := [], indices := (0, 0),
        anchor_start := (0, 0), anchor_end := (0, 0), wmin := 0, wmax := 10,
        finished := false }
      { key := "?", inaxes := true, xdata := 0, ydata := 0, x := 0, y := 0 }
      (by decide) (by decide)⟩

theorem head?_set_of_ne {l : List Pt} {i : ℕ} (hi : i ≠ 0) (v : Pt) :
    (l.set i v).head? = l.head? := by
  cases l with
  | nil => simp
  | cons a t =>
    cases i with
    | zero => exact absurd rfl hi
    | succ j => simp

theorem getLast?_set_of_ne {l : List Pt} {i : ℕ} (hi : i ≠ l.length - 1)
    (v : Pt) : (l.set i v).getLast? = l.getLast? := by
  rw [List.getLast?_eq_getElem?, List.getLast?_eq_getElem?, List.length_set]
  exact List.getElem?_set_ne hi

/-- Moving an interior knot to a wavelength strictly between the first and
last knots, then re-sorting, keeps the list sorted with the same first and
last entries and the same length. -/
theorem move_set_sort_spec {cp : List Pt} (hs : cp.Sorted ptLe) {h0 l0 : Pt}
    (hh : cp.head? = some h0) (hl : cp.getLast? = some l0) (ind : ℕ)
    (hind0 : ind ≠ 0) (hind1 : ind ≠ cp.length - 1) (p : Pt)
    (hp1 : h0.1 < p.1) (hp2 : p.1 < l0.1) :
    (List.insertionSort ptLe (cp.set ind p)).Sorted ptLe ∧
    (List.insertionSort ptLe (cp.set ind p)).head? = some h0 ∧
    (List.insertionSort ptLe (cp.set ind p)).getLast? = some l0 ∧
    (List.insertionSort ptLe (cp.set ind p)).length = cp.length := by
  by_cases hlt : ind < cp.length
  · have hperm : (List.insertionSort ptLe (cp.set ind p)).Perm (cp.set ind p) :=
      List.perm_insertionSort ptLe _
    have hsorted : (List.insertionSort ptLe (cp.set ind p)).Sorted ptLe :=
      List.sorted_insertionSort ptLe _
    have hmemdec : ∀ z ∈ cp.set ind p, z ∈ cp ∨ z = p := fun z hz =>
      List.mem_or_eq_of_mem_set hz
    refine ⟨hsorted, ?_, ?_, ?_⟩
    · refine head?_eq_of_sorted_min hsorted ?_ ?_
      · refine hperm.mem_iff.mpr ?_
        have : (cp.set ind p).head? = some h0 := by
          rw [head?_set_of_ne hind0]
          exact hh
        exact mem_of_head?_eq this
      · intro z hz
        rcases hmemdec z (hperm.mem_iff.mp hz) with h | h
        · exact ptLe_head_le hs hh h
        · exact Or.inl (h ▸ hp1)
    · refine getLast?_eq_of_sorted_max hsorted ?_ ?_
      · refine hperm.mem_iff.mpr ?_
        have : (cp.set ind p).getLast? = some l0 := by
          rw [getLast?_set_of_ne hind1]
          exact hl
        exact mem_of_getLast?_eq this
      · intro z hz
        rcases hmemdec z (hperm.mem_iff.mp hz) with h | h
        · exact ptLe_le_getLast hs hl h
        · exact Or.inl (h ▸ hp2)
    · rw [List.length_insertionSort, List.length_set]
  · rw [List.set_eq_of_length_le (le_of_not_lt hlt)]
    have heq : List.insertionSort ptLe cp = cp :=
      List.eq_of_perm_of_sorted (List.perm_insertionSort ptLe cp)
        (List.sorted_insertionSort ptLe cp) hs
    rw [heq]
    exact ⟨hs, hh, hl, rfl⟩

/-- Deleting an interior knot keeps the list sorted with the same first and
last entries, shortening it by one. -/
theorem delete_erase_spec {cp : List Pt} (hs : cp.Sorted ptLe) {h0 l0 : Pt}
    (hh : cp.head? = some h0) (hl : cp.getLast? = some l0) {ind : ℕ}
    (hind0 : ind ≠ 0) (hind1 : ind ≠ cp.length - 1) {v : Pt}
    (hv : cp.get? ind = some v) :
    (pyRemove cp v).Sorted ptLe ∧
    (pyRemove cp v).head? = some h0 ∧
    (pyRemove cp v).getLast? = some l0 ∧
    (pyRemove cp v).length = cp.length - 1 := by
  have hlt : ind < cp.length := by
    rw [List.get?_eq_getElem?] at hv
    exact (List.getElem?_eq_some_iff.mp hv).1
  rw [pyRemove_get_eq_eraseIdx hs hv]
  refine ⟨List.Pairwise.sublist (List.eraseIdx_sublist cp ind) hs, ?_, ?_, ?_⟩
  · cases cp with
    | nil => simp at hlt
    | cons a t =>
      cases ind with
      | zero => exact absurd rfl hind0
      | succ j =>
        rw [List.eraseIdx_cons_succ]
        exact hh
  · rw [eraseIdx_eq_take_drop_succ, List.getLast?_append]
    have hne : cp.drop (ind + 1) ≠ [] := by
      intro h
      have := congrArg List.length h
      rw [List.length_drop] at this
      simp only [List.length_nil] at this
      omega
    rw [List.getLast?_drop, if_neg (by omega)]
    rw [hl]
    rfl
  · rw [List.length_eraseIdx, if_pos hlt]

/-- One delete or move event keeps the knot list tuple-sorted with at least
2 knots and the same first and last entries, provided any move's cursor
wavelength is strictly between the first and last knot wavelengths. -/
theorem c8_event (lm : ℚ → Option ℚ) (tr : Pt → Pt)
    (spline : List Pt → ℚ → ℚ) (wa : List ℚ) (st : CoFitState) (ev : Event)
    {h0 l0 : Pt} (hs : st.contpoints.Sorted ptLe)
    (h2 : 2 ≤ st.contpoints.length)
    (hh : st.contpoints.head? = some h0) (hl : st.contpoints.getLast? = some l0)
    (hk : ev.key = "d" ∨ ev.key = "4" ∨ ev.key = "m" ∨ ev.key = "M")
    (hm : (ev.key = "m" ∨ ev.key = "M") → h0.1 < ev.xdata ∧ ev.xdata < l0.1) :
    (on_keypress lm tr spline wa st ev).1.contpoints.Sorted ptLe ∧
    2 ≤ (on_keypress lm tr spline wa st ev).1.contpoints.length ∧
    (on_keypress lm tr spline wa st ev).1.contpoints.head? = some h0 ∧
    (on_keypress lm tr spline wa st ev).1.contpoints.getLast? = some l0 := by
  have hne : st.contpoints ≠ [] := by
    intro h
    rw [h] at h2
    simp at h2
  by_cases hax : ev.inaxes = true
  swap
  · rw [on_keypress_not_inaxes lm tr spline wa st ev
      (by rcases hk with h | h | h | h <;> rw [h] <;> decide)
      (by rcases hk with h | h | h | h <;> rw [h] <;> decide)
      (by rcases hk with h | h | h | h <;> rw [h] <;> decide)
      (Bool.not_eq_true ev.inaxes ▸ hax)]
    exact ⟨hs, h2, hh, hl⟩
  have hdd : (ev.key = "d" ∨ ev.key = "4") ∨ (ev.key = "m" ∨ ev.key = "M") := by
    tauto
  rcases hdd with hdd | hmm
  · by_cases h3 : st.contpoints.length < 3
    · rw [on_keypress_delete_reject lm tr spline wa st ev hdd hax (Or.inl h3)]
      exact ⟨hs, h2, hh, hl⟩
    by_cases hedge : argminIdx (sepSq tr ev st.contpoints) = 0 ∨
        argminIdx (sepSq tr ev st.contpoints) = st.contpoints.length - 1
    · rw [on_keypress_delete_reject lm tr spline wa st ev hdd hax
        (Or.inr (by rwa [sepSq_length]))]
      exact ⟨hs, h2, hh, hl⟩
    · rw [not_or] at hedge
      have hlt : argminIdx (sepSq tr ev st.contpoints) < st.contpoints.length := by
        have := argminIdx_lt_length (sepSq tr ev st.contpoints)
          (by
            intro hnil
            rw [← List.length_eq_zero, sepSq_length] at hnil
            omega)
        rwa [sepSq_length] at this
      have hv : st.contpoints.get? (argminIdx (sepSq tr ev st.contpoints)) =
          some (st.contpoints.get
            ⟨argminIdx (sepSq tr ev st.contpoints), hlt⟩) := by
        rw [List.get?_eq_getElem?]
        exact List.getElem?_eq_getElem hlt
      rw [on_keypress_delete lm tr spline wa st ev _ hdd hax h3 hv hedge.1
        (by rw [sepSq_length]; exact hedge.2)]
      obtain ⟨d1, d2, d3, d4⟩ := delete_erase_spec hs hh hl hedge.1 hedge.2 hv
      exact ⟨d1, by rw [d4]; omega, d2, d3⟩
  · obtain ⟨hb1, hb2⟩ := hm hmm
    by_cases hb : between ev.xdata st.wmin st.wmax = true
    swap
    · rw [on_keypress_move_reject_window lm tr spline wa st ev hmm hax
        (Bool.not_eq_true _ ▸ hb)]
      exact ⟨hs, h2, hh, hl⟩
    by_cases hedge : argminIdx (sepSq tr ev st.contpoints) = 0 ∨
        argminIdx (sepSq tr ev st.contpoints) = st.contpoints.length - 1
    · rw [on_keypress_move_reject_edge lm tr spline wa st ev hmm hax hb hne
        (by rwa [sepSq_length])]
      exact ⟨hs, h2, hh, hl⟩
    rw [not_or] at hedge
    rcases hmm with hm' | hM'
    · rw [on_keypress_move lm tr spline wa st ev hm' hax hb hne hedge.1
        (by rw [sepSq_length]; exact hedge.2)]
      obtain ⟨m1, m2, m3, m4⟩ := move_set_sort_spec hs hh hl
        (argminIdx (sepSq tr ev st.contpoints)) hedge.1 hedge.2
        (ev.xdata, ev.ydata) hb1 hb2
      exact ⟨m1, by rw [m4]; exact h2, m2, m3⟩
    · by_cases hdup : ev.xdata ∈ st.contpoints.map Prod.fst
      · rw [on_keypress_moveM_nameError lm tr spline wa st ev hM' hax hb hne
          hedge.1 (by rw [sepSq_length]; exact hedge.2) hdup]
        exact ⟨hs, h2, hh, hl⟩
      · rw [on_keypress_moveM lm tr spline wa st ev hM' hax hb hne hedge.1
          (by rw [sepSq_length]; exact hedge.2) hdup]
        obtain ⟨m1, m2, m3, m4⟩ := move_set_sort_spec hs hh hl
          (argminIdx (sepSq tr ev st.contpoints)) hedge.1 hedge.2
          (ev.xdata, (lm ev.xdata).getD ev.ydata) hb1 hb2
        exact ⟨m1, by rw [m4]; exact h2, m2, m3⟩

/-- C8 (amended): over any sequence of delete ('d'/'4') and move ('m'/'M')
events in which every move's cursor wavelength lies strictly between the
first and last knot wavelengths, the first and last entries of a sorted
knot list (with at least 2 knots) never change.  The counterexample
theorem above shows that a move whose cursor wavelength is at or below
the first knot wavelength does change the first entry. -/
theorem c8_anchor_entries (lm : ℚ → Option ℚ) (tr : Pt → Pt)
    (spline : List Pt → ℚ → ℚ) (wa : List ℚ) (h0 l0 : Pt) :
    ∀ (evs : List Event) (st : CoFitState),
    st.contpoints.Sorted ptLe → 2 ≤ st.contpoints.length →
    st.contpoints.head? = some h0 → st.contpoints.getLast? = some l0 →
    (∀ ev ∈ evs, ev.key = "d" ∨ ev.key = "4" ∨ ev.key = "m" ∨ ev.key = "M") →
    (∀ ev ∈ evs, (ev.key = "m" ∨ ev.key = "M") →
      h0.1 < ev.xdata ∧ ev.xdata < l0.1) →
    (runEvents lm tr spline wa st evs).contpoints.head? = some h0 ∧
    (runEvents lm tr spline wa st evs).contpoints.getLast? = some l0
  | [], st, _, _, hh, hl, _, _ => ⟨hh, hl⟩
  | ev :: evs, st, hs, h2, hh, hl, hk, hm => by
    obtain ⟨e1, e2, e3, e4⟩ := c8_event lm tr spline wa st ev hs h2 hh hl
      (hk ev (List.mem_cons_self ev evs)) (hm ev (List.mem_cons_self ev evs))
    exact c8_anchor_entries lm tr spline wa h0 l0 evs
      (on_keypress lm tr spline wa st ev).1 e1 e2 e3 e4
      (fun e he => hk e (List.mem_cons_of_mem ev he))
      (fun e he => hm e (List.mem_cons_of_mem ev he))

/-- C8: a counterexample to the claim over arbitrary cursor positions: from
an initialized state with knots [(1,1),(5,1),(10,1)] and pre-snap window
[0, 10), a single move event at cursor wavelength 1/2 (inside the window
but below the first knot) re-sorts the moved knot to the front, changing
the knot list's first entry from (1,1) to (1/2,2). -/
theorem c8_counterexample :
    (initCoFit [-5, 1, 5, 10, 15, 20] [1, 1, 1, 1, 1, 1]
        [(0, 1), (5, 1), (10, 1)]).map
      (fun st => (st.contpoints.head?,
        (runEvents lmNone trId splineZero [-5, 1, 5, 10, 15, 20] st
          [{ key := "m", inaxes := true, xdata := 1/2, ydata := 2,
             x := 5, y := 1 }]).contpoints.head?)) =
      some (some ((1 : ℚ), (1 : ℚ)), some ((1/2 : ℚ), (2 : ℚ))) ∧
    (some ((1 : ℚ), (1 : ℚ)) : Option Pt) ≠ some ((1/2 : ℚ), (2 : ℚ)) := by
  constructor
  · have h0 : initCoFit [-5, 1, 5, 10, 15, 20] [1, 1, 1, 1, 1, 1]
        [(0, 1), (5, 1), (10, 1)] =
        some { contpoints := [(1, 1), (5, 1), (10, 1)],
               continuum := [1, 1, 1, 1, 1, 1], indices := (1, 3),
               anchor_start := (-5, 1), anchor_end := (15, 1),
               wmin := 0, wmax := 10, finished := false } := by
      decide
    rw [h0]
    simp only [Option.map_some', runEvents]
    have hm := on_keypress_move lmNone trId splineZero [-5, 1, 5, 10, 15, 20]
      { contpoints := [(1, 1), (5, 1), (10, 1)],
        continuum := [1, 1, 1, 1, 1, 1], indices := (1, 3),
        anchor_start := (-5, 1), anchor_end := (15, 1),
        wmin := 0, wmax := 10, finished := false }
      { key := "m", inaxes := true, xdata := 1/2, ydata := 2, x := 5, y := 1 }
      rfl rfl (by simp only [between, decide_eq_true_eq]; norm_num) (by decide)
      (by norm_num [sepSq, argminIdx, listMin, trId])
      (by norm_num [sepSq, argminIdx, listMin, trId])
    rw [hm]
    have ha : argminIdx (sepSq trId
        { key := "m", inaxes := true, xdata := 1/2, ydata := 2, x := 5, y := 1 }
        [((1 : ℚ), (1 : ℚ)), (5, 1), (10, 1)]) = 1 := by
      norm_num [sepSq, argminIdx, listMin, trId]
    rw [ha]
    norm_num [List.insertionSort, List.orderedInsert, ptLe]
  · simp only [ne_eq, Option.some.injEq, Prod.mk.injEq]
    norm_num

theorem c8_anchor_entries_witness :
    (runEvents lmNone trId splineZero []
      { contpoints := [(0, 0), (5, 5), (10, 0)], continuum := [],
        indices := (0, 0), anchor_start := (0, 0), anchor_end := (0, 0),
        wmin := 0, wmax := 10, finished := false }
      [{ key := "m", inaxes := true, xdata := 3, ydata := 7, x := 5, y := 5 },
       { key := "d", inaxes := true, xdata := 3, ydata := 7,
         x := 5, y := 5 }]).contpoints.head? = some ((0 : ℚ), (0 : ℚ)) ∧
    (runEvents lmNone trId splineZero []
      { contpoints := [(0, 0), (5, 5), (10, 0)], continuum := [],
        indices := (0, 0), anchor_start := (0, 0), anchor_end := (0, 0),
        wmin := 0, wmax := 10, finished := false }
      [{ key := "m", inaxes := true, xdata := 3, ydata := 7, x := 5, y := 5 },
       { key := "d", inaxes := true, xdata := 3, ydata := 7,
         x := 5, y := 5 }]).contpoints.getLast? = some ((10 : ℚ), (0 : ℚ)) :=
  c8_anchor_entries lmNone trId splineZero [] (0, 0) (10, 0)
    [{ key := "m", inaxes := true, xdata := 3, ydata := 7, x := 5, y := 5 },
     { key := "d", inaxes := true, xdata := 3, ydata := 7, x := 5, y := 5 }]
    { contpoints := [(0, 0), (5, 5), (10, 0)], continuum := [],
      indices := (0, 0), anchor_start := (0, 0), anchor_end := (0, 0),
      wmin := 0, wmax := 10, finished := false }
    (by decide) (by decide) (by decide) (by decide) (by decide) (by decide)
